import Mathlib

/-!
# Tracker-Ahmed: the day-record model and its derived views

A shallow embedding of the logic of `src/App.jsx` (the `TransformationTracker`
component): the day record and its updates (`updateTodayData` and the toggles), the
completion classifier `getDayStatus`, the streak counter `getStreak`, the calendar ranges
`getWeekDates` and `getMonthDates`, the progress series `getProgressData` and the text of
the CSV export `exportData`.

Modelling conventions.

* The React state `data` is a JavaScript object from date keys to records. It is embedded
  as an association list in insertion order; `data[key]` is `List.lookup`.
* A `Date` object is embedded as its day number (days since 1970-01-01). The time of
  day, which `setDate` keeps and `toISOString().split('T')[0]` drops, is not represented,
  and local time is UTC, so that the local calendar date is the date of the key.
* `new Date()` (the current date) and the React state (`data`, `weekOffset`,
  `monthOffset`) are explicit arguments.
* The product `totalRequired * 0.6` is an IEEE-754 double; it is embedded exactly, as a
  numerator over `2^53`, with round-to-nearest-even on a 53 bit significand.
* A property read is a read of an own property: the keys in use (date keys, supplement
  names, labels) are not names that an object inherits from `Object.prototype`.
* A state update is applied to the `data` that the same call reads: every call of an
  update function sees the store that the call before it produced.
-/

namespace Tracker

/-! ## The day record (`getTodayData`, lines 42-53) -/

/-- One slot mapping of `supplements`: supplement name to taken flag, in property order. -/
abbrev SlotMap := List (String × Bool)

/-- The `supplements` object of a record; a slot can be missing (`undefined`). -/
structure Supplements where
  morning : Option SlotMap
  evening : Option SlotMap
  meal : Option SlotMap
  deriving DecidableEq

/-- One day record. `training` and `fasting` are a label or `null`; `steps`, `weight`
and `comments` are the text of their input fields. -/
structure DayRecord where
  supplements : Option Supplements
  training : Option String
  steps : String
  hydration : Bool
  weight : String
  fasting : Option String
  comments : String
  mood : List String
  deriving DecidableEq

/-- The record store: the object `data`, keyed by date key. -/
abbrev Store := List (String × DayRecord)

/-- The zero-value record literal of `getTodayData`. -/
def defaultRecord : DayRecord where
  supplements := some { morning := some [], evening := some [], meal := some [] }
  training := none
  steps := ""
  hydration := false
  weight := ""
  fasting := none
  comments := ""
  mood := []

/-- The function `getTodayData`: `data[selectedDate] || { ... }`. -/
def getTodayData (data : Store) (selectedDate : String) : DayRecord :=
  match data.lookup selectedDate with
  | some r => r
  | none => defaultRecord

/-! ## The double `totalRequired * 0.6` -/

/-- The double written `0.6` is `sixTenthsNum / 2^53`. -/
def sixTenthsNum : Nat := 5404319552844595

/-- Binary length of `n` with fuel. -/
def bitLenAux : Nat → Nat → Nat
  | 0, _ => 0
  | fuel + 1, n => if n = 0 then 0 else bitLenAux fuel (n / 2) + 1

/-- The number of binary digits of `n` (`0` for `0`). -/
def bitLen (n : Nat) : Nat := bitLenAux n n

/-- The integer nearest to `m / 2^e`, ties to even. -/
def roundHalfEven (m e : Nat) : Nat :=
  if 2 * (m % 2 ^ e) > 2 ^ e ∨ (2 * (m % 2 ^ e) = 2 ^ e ∧ (m / 2 ^ e) % 2 = 1)
  then m / 2 ^ e + 1 else m / 2 ^ e

/-- The double nearest to the real `m / 2^53` (normal range), again as a numerator
over `2^53`: the significand keeps 53 bits. -/
def roundDouble (m : Nat) : Nat :=
  roundHalfEven m (bitLen m - 53) * 2 ^ (bitLen m - 53)

/-- The double `totalRequired * 0.6`, as a numerator over `2^53`. The integer
`totalRequired` is an array length, itself an exact double. -/
def timesSixTenths (totalRequired : Nat) : Nat :=
  roundDouble (totalRequired * sixTenthsNum)

/-- The test `completedChecks > totalRequired * 0.6`. -/
def exceedsSixTenths (completedChecks totalRequired : Nat) : Bool :=
  decide (completedChecks * 2 ^ 53 > timesSixTenths totalRequired)

/-! ## The completion classifier (`getDayStatus`, lines 105-123) -/

/-- The expression `Object.values(slot || {})`. -/
def slotValues (slot : Option SlotMap) : List Bool :=
  match slot with
  | some m => m.map Prod.snd
  | none => []

/-- The number of entries of a slot mapping, `0` when the slot is missing. -/
def slotCount (slot : Option SlotMap) : Nat :=
  match slot with
  | some m => m.length
  | none => 0

/-- The expression `!!x` on a label or `null`: the empty string is falsy too. -/
def truthy (x : Option String) : Bool :=
  match x with
  | some s => decide (s ≠ "")
  | none => false

/-- The array `totalChecks` (line 116). -/
def totalChecks (dayData : DayRecord) : List Bool :=
  let morningSupps := slotValues (dayData.supplements.bind Supplements.morning)
  let eveningSupps := slotValues (dayData.supplements.bind Supplements.evening)
  let mealSupps := slotValues (dayData.supplements.bind Supplements.meal)
  let hasTraining := truthy dayData.training
  let hasHydration := dayData.hydration
  let hasFasting := truthy dayData.fasting
  morningSupps ++ eveningSupps ++ mealSupps ++ [hasTraining, hasHydration, hasFasting]

/-- The value `completedChecks` (line 117): `totalChecks.filter(Boolean).length`. -/
def completedChecks (checks : List Bool) : Nat := (checks.filter id).length

/-- Lines 117-122 of `getDayStatus`: the status of a checklist. -/
def classify (checks : List Bool) : String :=
  let completed := completedChecks checks
  let totalRequired := checks.length
  if completed = totalRequired then "complete"
  else if exceedsSixTenths completed totalRequired then "partial"
  else "incomplete"

/-- The function `getDayStatus`. -/
def getDayStatus (data : Store) (date : String) : String :=
  match data.lookup date with
  | none => "empty"
  | some dayData => classify (totalChecks dayData)

/-! ## Dates

The built-in `Date` operations used by the source, on day numbers. The calendar is the
proleptic Gregorian one; a day number is split into its 400-year era, the century, the
4-year group and the year inside them, with years counted from 1 March. The range limit
of `Date` (100 000 000 days on either side of 1970-01-01) is not represented; inside it
the year has at most six digits, as `isoYear` prints it. -/

/-- The method `getDay`: the weekday index, `0` for Sunday (1970-01-01 is a Thursday). -/
def getDay (t : Int) : Int := (t + 4) % 7

/-- The day inside the 400-year era of `t`, counted from 0000-03-01. -/
def dayOfEra (t : Int) : Int := (t + 719468) % 146097

/-- The 400-year era of `t`. -/
def eraOf (t : Int) : Int := (t + 719468) / 146097

/-- The century inside the era (the last day of the era belongs to century 3). -/
def centuryOf (doe : Int) : Int := if doe / 36524 = 4 then 3 else doe / 36524

/-- The day inside the century. -/
def dayOfCentury (doe : Int) : Int := doe - 36524 * centuryOf doe

/-- The 4-year group inside the century. -/
def quadOf (doe : Int) : Int := dayOfCentury doe / 1461

/-- The day inside the 4-year group. -/
def dayOfQuad (doe : Int) : Int := dayOfCentury doe % 1461

/-- The year inside the 4-year group (its last day belongs to year 3). -/
def yearOfQuad (doe : Int) : Int := if dayOfQuad doe / 365 = 4 then 3 else dayOfQuad doe / 365

/-- The March-based year inside the era, `0..399`. -/
def yearOfEra (doe : Int) : Int := 100 * centuryOf doe + 4 * quadOf doe + yearOfQuad doe

/-- The day of the March-based year, `0..365`. -/
def dayOfYear (doe : Int) : Int := dayOfQuad doe - 365 * yearOfQuad doe

/-- The month of a day of the March-based year, `0` for March. -/
def marchMonth (doy : Int) : Int := (5 * doy + 2) / 153

/-- The first day of a March-based month inside its year. -/
def marchMonthStart (mp : Int) : Int := (153 * mp + 2) / 5

/-- The method `getMonth`: `0` for January. -/
def getMonth (t : Int) : Int :=
  let mp := marchMonth (dayOfYear (dayOfEra t))
  if mp < 10 then mp + 2 else mp - 10

/-- The method `getDate`: the day of the month, from `1`. -/
def getDate (t : Int) : Int :=
  let doy := dayOfYear (dayOfEra t)
  doy - marchMonthStart (marchMonth doy) + 1

/-- The method `getFullYear`. -/
def getFullYear (t : Int) : Int :=
  let doe := dayOfEra t
  400 * eraOf t + yearOfEra doe + (if marchMonth (dayOfYear doe) < 10 then 0 else 1)

/-- The day number of the first day of month `mn` (`0..11`, `0` for January) of year `ym`. -/
def firstOfMonth (ym mn : Int) : Int :=
  let y := if mn < 2 then ym - 1 else ym
  let mp := if mn < 2 then mn + 10 else mn - 2
  146097 * (y / 400) + (365 * (y % 400) + y % 400 / 4 - y % 400 / 100)
    + marchMonthStart mp - 719468

/-- The abstract operation `MakeDay(year, month, date)`: months beyond `0..11` carry into
the year and the date counts on from the first of the month. -/
def makeDay (year month date : Int) : Int :=
  firstOfMonth (year + month / 12) (month % 12) + date - 1

/-- The method `setDate`: the day `date` of the month of `t` (`0` is the last day of the
month before, and so on). -/
def setDate (t date : Int) : Int := makeDay (getFullYear t) (getMonth t) date

/-- The constructor `new Date(year, month, date)`; a year in `0..99` means `1900 + year`. -/
def newDate (year month date : Int) : Int :=
  makeDay (if 0 ≤ year ∧ year ≤ 99 then 1900 + year else year) month date

/-- One decimal digit. -/
def digitChar (n : Nat) : Char := Char.ofNat (48 + n % 10)

/-- The last `width` decimal digits of `n`, zero padded. -/
def padDigits : Nat → Nat → List Char
  | 0, _ => []
  | width + 1, n => padDigits width (n / 10) ++ [digitChar n]

/-- The year of an ISO date: four digits, or a sign and six digits outside `0..9999`. -/
def isoYear (y : Int) : List Char :=
  if 0 ≤ y ∧ y ≤ 9999 then padDigits 4 y.toNat
  else (if y < 0 then '-' else '+') :: padDigits 6 y.natAbs

/-- The expression `date.toISOString().split('T')[0]`: the date key of a day. -/
def toISODate (t : Int) : String :=
  String.mk (isoYear (getFullYear t) ++ '-' :: padDigits 2 (getMonth t + 1).toNat
    ++ '-' :: padDigits 2 (getDate t).toNat)

/-! ## The streak counter (`getStreak`, lines 125-139) -/

/-- The date key computed in iteration `i` of the loop of `getStreak` (lines 129-131). -/
def streakDateStr (today : Int) (i : Nat) : String :=
  toISODate (setDate today (getDate today - i))

/-- The loop of `getStreak` from iteration `i` on, with `n` iterations left. -/
def streakLoop (data : Store) (today : Int) : Nat → Nat → Nat → Nat
  | 0, _, streak => streak
  | n + 1, i, streak =>
    if getDayStatus data (streakDateStr today i) = "complete" then
      streakLoop data today n (i + 1) (streak + 1)
    else if i > 0 then streak
    else streakLoop data today n (i + 1) streak

/-- The function `getStreak`: the loop runs for `i` from `0` to `99`. -/
def getStreak (data : Store) (today : Int) : Nat := streakLoop data today 100 0 0

/-! ## The calendar ranges (`getWeekDates`, lines 141-153; `getMonthDates`, lines 155-176) -/

/-- The date `startOfWeek` of `getWeekDates` (line 145). -/
def startOfWeek (today weekOffset : Int) : Int :=
  setDate today (getDate today - getDay today + 1 + weekOffset * 7)

/-- The function `getWeekDates`. -/
def getWeekDates (today weekOffset : Int) : List String :=
  (List.range 7).map fun (i : Nat) =>
    toISODate (setDate (startOfWeek today weekOffset)
      (getDate (startOfWeek today weekOffset) + (i : Int)))

/-- The date `targetMonth` of `getMonthDates` (line 158). -/
def targetMonth (today monthOffset : Int) : Int :=
  newDate (getFullYear today) (getMonth today + monthOffset) 1

/-- The date `startDate` of `getMonthDates` (lines 161-166). -/
def startDate (today monthOffset : Int) : Int :=
  let firstDay := getDay (targetMonth today monthOffset)
  let offset := if firstDay = 0 then -6 else 1 - firstDay
  setDate (targetMonth today monthOffset) offset

/-- The function `getMonthDates`. -/
def getMonthDates (today monthOffset : Int) : List String :=
  (List.range 42).map fun (i : Nat) =>
    toISODate (setDate (startDate today monthOffset)
      (getDate (startDate today monthOffset) + (i : Int)))

/-! ## Objects as ordered key-value lists

An ordinary object lists its own string keys with the array indices first, in ascending
numeric order, and the other keys after them in the order of their creation. An
object is embedded as the list of its entries in that order; its keys are distinct. -/

/-- The value of a string of decimal digits. -/
def digitsToNat (cs : List Char) : Nat :=
  cs.foldl (fun n c => 10 * n + (c.toNat - 48)) 0

/-- The array index that a property key denotes: the key is the canonical decimal numeral
(no leading zero) of an integer below `2^32 - 1`. -/
def arrayIndex (k : String) : Option Nat :=
  if k.data ≠ [] ∧ k.data.all Char.isDigit = true ∧ (k.data.head? ≠ some '0' ∨ k.data.length = 1)
      ∧ digitsToNat k.data < 2 ^ 32 - 1
  then some (digitsToNat k.data) else none

/-- Whether an entry comes before the array index `n` in the key order. -/
def indexBelow {β : Type} (n : Nat) (e : String × β) : Bool :=
  match arrayIndex e.1 with
  | some m => decide (m < n)
  | none => false

/-- The creation of the property `k`: an array index goes to its numeric place among the
indices, any other key to the end. -/
def objInsertNew {β : Type} (o : List (String × β)) (k : String) (v : β) : List (String × β) :=
  match arrayIndex k with
  | none => o ++ [(k, v)]
  | some n => o.takeWhile (indexBelow n) ++ (k, v) :: o.dropWhile (indexBelow n)

/-- The assignment to the existing property `k`: the entry keeps its place. -/
def objReplace {β : Type} (o : List (String × β)) (k : String) (v : β) : List (String × β) :=
  o.map fun e => if e.1 = k then (k, v) else e

/-- The assignment `o[k] = v`. -/
def objSet {β : Type} (o : List (String × β)) (k : String) (v : β) : List (String × β) :=
  if k ∈ o.map Prod.fst then objReplace o k v else objInsertNew o k v

/-! ## Record updates (`updateTodayData`, lines 55-63; the toggles, lines 65-96) -/

/-- The three time slots. -/
inductive Slot where
  | morning
  | evening
  | meal
  deriving DecidableEq

/-- The expression `supplements[time]`. -/
def slotOf (s : Supplements) (time : Slot) : Option SlotMap :=
  match time with
  | .morning => s.morning
  | .evening => s.evening
  | .meal => s.meal

/-- The assignment `supplements[time] = m`. -/
def setSlot (s : Supplements) (time : Slot) (m : SlotMap) : Supplements :=
  match time with
  | .morning => { s with morning := some m }
  | .evening => { s with evening := some m }
  | .meal => { s with meal := some m }

/-- The copy `{ ...today.supplements }`; spreading `undefined` gives the empty object. -/
def spreadSupplements (s : Option Supplements) : Supplements :=
  match s with
  | some x => x
  | none => { morning := none, evening := none, meal := none }

/-- The copy `{ ...supplements[time] }`. -/
def spreadSlot (m : Option SlotMap) : SlotMap :=
  match m with
  | some x => x
  | none => []

/-- The truth value of `slot[supp]`: a missing entry is `undefined`, which is falsy. -/
def takenIn (m : SlotMap) (supp : String) : Bool :=
  match m.lookup supp with
  | some b => b
  | none => false

/-- A field name together with the value assigned to it, for the fields the view
assigns. -/
inductive FieldValue where
  | supplements (v : Supplements)
  | training (v : Option String)
  | steps (v : String)
  | hydration (v : Bool)
  | weight (v : String)
  | fasting (v : Option String)
  | comments (v : String)
  | mood (v : List String)
  deriving DecidableEq

/-- The field names of a record. -/
inductive Field where
  | supplements
  | training
  | steps
  | hydration
  | weight
  | fasting
  | comments
  | mood
  deriving DecidableEq

/-- The name of the assigned field. -/
def FieldValue.field : FieldValue → Field
  | .supplements _ => .supplements
  | .training _ => .training
  | .steps _ => .steps
  | .hydration _ => .hydration
  | .weight _ => .weight
  | .fasting _ => .fasting
  | .comments _ => .comments
  | .mood _ => .mood

/-- The record `{ ...record, [field]: value }`. -/
def setField (record : DayRecord) (fv : FieldValue) : DayRecord :=
  match fv with
  | .supplements v => { record with supplements := some v }
  | .training v => { record with training := v }
  | .steps v => { record with steps := v }
  | .hydration v => { record with hydration := v }
  | .weight v => { record with weight := v }
  | .fasting v => { record with fasting := v }
  | .comments v => { record with comments := v }
  | .mood v => { record with mood := v }

/-- The content of a field of a record, left untyped: `none` stands for a missing
`supplements` object. -/
def getField (record : DayRecord) (f : Field) : Option FieldValue :=
  match f with
  | .supplements => record.supplements.map FieldValue.supplements
  | .training => some (.training record.training)
  | .steps => some (.steps record.steps)
  | .hydration => some (.hydration record.hydration)
  | .weight => some (.weight record.weight)
  | .fasting => some (.fasting record.fasting)
  | .comments => some (.comments record.comments)
  | .mood => some (.mood record.mood)

/-- The function `updateTodayData`, with the state update applied to the `data` that
`getTodayData` reads: `{ ...prev, [selectedDate]: { ...getTodayData(), [field]: value } }`. -/
def updateTodayData (data : Store) (selectedDate : String) (fv : FieldValue) : Store :=
  objSet data selectedDate (setField (getTodayData data selectedDate) fv)

/-- The object `supplements` that `toggleSupplement` stores (lines 67-69). -/
def toggledSupplements (today : DayRecord) (time : Slot) (supplement : String) : Supplements :=
  let supplements := spreadSupplements today.supplements
  let slot := spreadSlot (slotOf supplements time)
  setSlot supplements time (objSet slot supplement (!takenIn slot supplement))

/-- The function `toggleSupplement`. -/
def toggleSupplement (data : Store) (selectedDate : String) (time : Slot)
    (supplement : String) : Store :=
  updateTodayData data selectedDate
    (.supplements (toggledSupplements (getTodayData data selectedDate) time supplement))

/-- The slot mapping `record.supplements?.[time]` of a record. -/
def slotAt (record : DayRecord) (time : Slot) : Option SlotMap :=
  match record.supplements with
  | some s => slotOf s time
  | none => none

/-- The entry `record.supplements?.[time]?.[supp]` of a record, `none` when it is missing. -/
def entryOf (record : DayRecord) (time : Slot) (supp : String) : Option Bool :=
  match slotAt record time with
  | some m => m.lookup supp
  | none => none

/-- The taken value of a supplement in a record, a missing entry read as not taken. -/
def takenOf (record : DayRecord) (time : Slot) (supp : String) : Bool :=
  match entryOf record time supp with
  | some b => b
  | none => false

/-- The catalogue `supplementsList` (lines 276-280). -/
def supplementsList (time : Slot) : List String :=
  match time with
  | .morning => ["NAC 1200mg", "Vitamine C 1000mg", "Magnésium 200mg", "Électrolytes 500ml"]
  | .evening => ["NAC 1200mg", "Vitamine C 500mg", "Électrolytes 500ml"]
  | .meal => ["Créatine 5g", "Magnésium 200mg", "Zinc 30mg"]

/-- The value `allChecked` of `toggleAllSupplements` (line 77). -/
def allChecked (supplements : Supplements) (time : Slot) : Bool :=
  (supplementsList time).all fun supp =>
    match slotOf supplements time with
    | some m => takenIn m supp
    | none => false

/-- The slot mapping built by `toggleAllSupplements` (lines 79-82). -/
def allSlot (time : Slot) (value : Bool) : SlotMap :=
  (supplementsList time).foldl (fun m supp => objSet m supp value) []

/-- The object `supplements` that `toggleAllSupplements` stores (lines 75-82). -/
def allToggledSupplements (today : DayRecord) (time : Slot) : Supplements :=
  let supplements := spreadSupplements today.supplements
  setSlot supplements time (allSlot time (!allChecked supplements time))

/-- The function `toggleAllSupplements`. -/
def toggleAllSupplements (data : Store) (selectedDate : String) (time : Slot) : Store :=
  updateTodayData data selectedDate
    (.supplements (allToggledSupplements (getTodayData data selectedDate) time))

/-- The array `moods` of `toggleMood` after the update (lines 88-94): the first
occurrence of the tag is removed, or the tag is pushed. -/
def toggleMoodList (moods : List String) (moodEmoji : String) : List String :=
  if moodEmoji ∈ moods then moods.erase moodEmoji else moods ++ [moodEmoji]

/-- The function `toggleMood`. -/
def toggleMood (data : Store) (selectedDate : String) (moodEmoji : String) : Store :=
  updateTodayData data selectedDate
    (.mood (toggleMoodList (getTodayData data selectedDate).mood moodEmoji))

/-! ## Numbers from text (`parseFloat`, `parseInt`)

A number is embedded as the exact value of the numeral that is read, where the built-in
returns the double nearest to it; `-0` is `0`. -/

/-- A result of `parseFloat` or `parseInt`, or a count. -/
inductive JSNumber where
  | nan
  | infinity (negative : Bool)
  | finite (value : ℚ)
  deriving DecidableEq

/-- The white space and line terminator characters that the parsers skip. -/
def isWhiteSpace (c : Char) : Bool :=
  c.toNat ∈ [9, 10, 11, 12, 13, 32, 160, 5760, 8192, 8193, 8194, 8195, 8196, 8197, 8198, 8199,
    8200, 8201, 8202, 8232, 8233, 8239, 8287, 12288, 65279]

/-- The value `± digits * 10 ^ exponent`. -/
def decimalValue (negative : Bool) (digits : Nat) (exponent : Int) : ℚ :=
  (if negative then -1 else 1) * (digits : ℚ) * (10 : ℚ) ^ exponent

/-- The value of the exponent part at the head of `cs`, `0` when there is none: `e` or
`E`, an optional sign and at least one digit. -/
def exponentPart (cs : List Char) : Int :=
  match cs with
  | [] => 0
  | e :: rest =>
    if e = 'e' ∨ e = 'E' then
      match rest with
      | '-' :: r =>
        if r.takeWhile Char.isDigit = [] then 0 else -(digitsToNat (r.takeWhile Char.isDigit) : Int)
      | '+' :: r => (digitsToNat (r.takeWhile Char.isDigit) : Int)
      | r => (digitsToNat (r.takeWhile Char.isDigit) : Int)
    else 0

/-- A numeral read from a text: none, `Infinity`, or `digits * 10 ^ exponent`. -/
inductive Numeral where
  | none
  | infinity
  | decimal (digits : Nat) (exponent : Int)
  deriving DecidableEq

/-- The number that a signed numeral stands for. -/
def numberOf (negative : Bool) (numeral : Numeral) : JSNumber :=
  match numeral with
  | .none => .nan
  | .infinity => .infinity negative
  | .decimal digits exponent => .finite (decimalValue negative digits exponent)

/-- The longest prefix of `cs` that is an unsigned decimal literal: `Infinity`, or digits
with an optional fraction and exponent, with a digit before or after the point. -/
def readDecimal (cs : List Char) : Numeral :=
  if "Infinity".data.isPrefixOf cs then .infinity
  else
    let intDigits := cs.takeWhile Char.isDigit
    let afterInt := cs.dropWhile Char.isDigit
    let fracDigits := match afterInt with
      | '.' :: r => r.takeWhile Char.isDigit
      | _ => []
    let afterFrac := match afterInt with
      | '.' :: r => r.dropWhile Char.isDigit
      | _ => afterInt
    if intDigits = [] ∧ fracDigits = [] then .none
    else .decimal (digitsToNat (intDigits ++ fracDigits))
      (exponentPart afterFrac - (fracDigits.length : Int))

/-- The built-in `parseFloat`: white space, an optional sign and a decimal literal. -/
def parseFloat (text : String) : JSNumber :=
  match text.data.dropWhile isWhiteSpace with
  | '+' :: r => numberOf false (readDecimal r)
  | '-' :: r => numberOf true (readDecimal r)
  | r => numberOf false (readDecimal r)

/-- The value of a hexadecimal digit. -/
def hexDigit (c : Char) : Option Nat :=
  if c.isDigit then some (c.toNat - 48)
  else if 'a' ≤ c ∧ c ≤ 'f' then some (c.toNat - 87)
  else if 'A' ≤ c ∧ c ≤ 'F' then some (c.toNat - 55)
  else none

/-- The integer read from the longest prefix of digits in the radix. -/
def readRadix (radix : Nat) (cs : List Char) : Numeral :=
  if cs.takeWhile (fun c => (hexDigit c).any (· < radix)) = [] then .none
  else .decimal ((cs.takeWhile fun c => (hexDigit c).any (· < radix)).foldl
    (fun n c => radix * n + (hexDigit c).getD 0) 0) 0

/-- The digits of `parseInt` after the sign: a prefix `0x` or `0X` selects radix 16. -/
def readInt (cs : List Char) : Numeral :=
  match cs with
  | '0' :: 'x' :: r => readRadix 16 r
  | '0' :: 'X' :: r => readRadix 16 r
  | r => readRadix 10 r

/-- The built-in `parseInt` without radix. -/
def parseInt (text : String) : JSNumber :=
  match text.data.dropWhile isWhiteSpace with
  | '+' :: r => numberOf false (readInt r)
  | '-' :: r => numberOf true (readInt r)
  | r => numberOf false (readInt r)

/-! ## The progress series (`getProgressData`, lines 178-227) -/

/-- The date of `new Date(key)` for a key `YYYY-MM-DD` of a calendar day, as a day number
(the time is midnight UTC); `none` is the invalid date. The other forms that `Date.parse`
accepts are not represented. -/
def parseDateKey (key : String) : Option Int :=
  match key.data with
  | [y1, y2, y3, y4, '-', m1, m2, '-', d1, d2] =>
    if [y1, y2, y3, y4, m1, m2, d1, d2].all Char.isDigit then
      let year : Int := digitsToNat [y1, y2, y3, y4]
      let month : Int := digitsToNat [m1, m2]
      let day : Int := digitsToNat [d1, d2]
      if 1 ≤ month ∧ month ≤ 12 ∧ 1 ≤ day ∧ getMonth (makeDay year (month - 1) day) = month - 1
      then some (makeDay year (month - 1) day) else none
    else none
  | _ => none

/-- The comparator `new Date(a) - new Date(b)` in days; `none` is `NaN`. -/
def compareDates (a b : String) : Option Int :=
  match parseDateKey a, parseDateKey b with
  | some x, some y => some (x - y)
  | _, _ => none

/-- Whether the sort leaves `a` before `b`: the comparator is not positive, `NaN`
counting as `0`. -/
def dateOrdered (a b : String × DayRecord) : Bool :=
  match compareDates a.1 b.1 with
  | some v => decide (v ≤ 0)
  | none => true

/-- The insertion of an entry into a sorted list, before the first entry that may follow
it. -/
def insertSorted (e : String × DayRecord) : List (String × DayRecord) → List (String × DayRecord)
  | [] => [e]
  | x :: xs => if dateOrdered e x then e :: x :: xs else x :: insertSorted e xs

/-- The method `sort` with the date comparator, as a stable insertion sort. On valid keys
the comparator is consistent and every sort gives this order; on other keys the order is
left to the implementation. -/
def sortByDate : List (String × DayRecord) → List (String × DayRecord)
  | [] => []
  | e :: es => insertSorted e (sortByDate es)

/-- The filter of `getProgressData` (lines 180-186). -/
def metricFilter (progressMetric : String) (value : DayRecord) : Bool :=
  if progressMetric = "weight" then decide (value.weight ≠ "")
  else if progressMetric = "steps" then decide (value.steps ≠ "")
  else if progressMetric = "training" then truthy value.training
  else if progressMetric = "fasting" then truthy value.fasting
  else false

/-- The array `sorted` of `getProgressData` (lines 179-187). -/
def progressSorted (data : Store) (progressMetric : String) : List (String × DayRecord) :=
  sortByDate (data.filter fun e => metricFilter progressMetric e.2)

/-- The counting loops of lines 204-208 and 216-219: `count[l] = (count[l] || 0) + 1` for
every label in turn, from the empty object. -/
def countLabels (labels : List String) : List (String × Nat) :=
  labels.foldl (fun o l => objSet o l ((match o.lookup l with | some c => c | none => 0) + 1)) []

/-- The distinct labels of a list, each at the place of its first occurrence. -/
def firstOccurrences : List String → List String
  | [] => []
  | x :: xs => x :: (firstOccurrences xs).filter fun y => decide (y ≠ x)

/-- The day number of the date key of an entry, `0` for an invalid key. -/
def dayOfEntry (e : String × DayRecord) : Int :=
  match parseDateKey e.1 with
  | some t => t
  | none => 0

/-- The property key that a label or `null` is converted to. -/
def keyOf (x : Option String) : String :=
  match x with
  | some s => s
  | none => "null"

/-- One point of a series. -/
structure Point where
  date : String
  value : JSNumber
  deriving DecidableEq

/-- The function `getProgressData`. The argument `label` stands for
`new Date(date).toLocaleDateString('fr-FR', { day: '2-digit', month: 'short' })`, whose
result depends on the locale data of the host. -/
def getProgressData (data : Store) (progressMetric : String) (label : String → String) :
    List Point :=
  let sorted := progressSorted data progressMetric
  if progressMetric = "weight" then
    sorted.map fun e => { date := label e.1, value := parseFloat e.2.weight }
  else if progressMetric = "steps" then
    sorted.map fun e => { date := label e.1, value := parseInt e.2.steps }
  else if progressMetric = "training" then
    (countLabels (sorted.map fun e => label e.1)).map fun e =>
      { date := e.1, value := .finite (e.2 : ℚ) }
  else if progressMetric = "fasting" then
    (countLabels (sorted.map fun e => keyOf e.2.fasting)).map fun e =>
      { date := e.1, value := .finite (e.2 : ℚ) }
  else []

/-- The short month names of the French locale. -/
def frenchMonths : List String :=
  ["janv.", "févr.", "mars", "avr.", "mai", "juin", "juil.", "août", "sept.", "oct.", "nov.",
    "déc."]

/-- A label function of the kind the source uses: two digits for the day and the short
French month, without the year. -/
def frenchLabel (key : String) : String :=
  match parseDateKey key with
  | none => "Invalid Date"
  | some t => String.mk (padDigits 2 (getDate t).toNat) ++ " "
      ++ frenchMonths.getD (getMonth t).toNat ""

/-! ## The CSV export (`exportData`, lines 229-259) -/

/-- The header line. -/
def csvHeader : String :=
  "Date,Poids,Training,Pas,Hydratation,Jeûne,Mood,Compléments Matin,Compléments Soir,Compléments Repas,Commentaires"

/-- The names of the entries of a slot that are true, joined by `;` (lines 232-243). -/
def takenNames (slot : Option SlotMap) : String :=
  ";".intercalate (((spreadSlot slot).filter fun e => e.2).map Prod.fst)

/-- The expression `text.replace(/,/g, ';')`. -/
def replaceCommas (text : String) : String :=
  String.mk (text.data.map fun c => if c = ',' then ';' else c)

/-- The array of the 11 fields of a row (lines 244-256). -/
def csvFields (date : String) (value : DayRecord) : List String :=
  [date,
   value.weight,
   value.training.getD "",
   value.steps,
   if value.hydration then "Oui" else "Non",
   value.fasting.getD "",
   ";".intercalate value.mood,
   takenNames (value.supplements.bind Supplements.morning),
   takenNames (value.supplements.bind Supplements.evening),
   takenNames (value.supplements.bind Supplements.meal),
   replaceCommas value.comments]

/-- One row of the export. -/
def csvRow (date : String) (value : DayRecord) : String :=
  ",".intercalate (csvFields date value)

/-- The array `csv` after the loop: the header, then one pushed row for every entry. -/
def csvLines (data : Store) : List String :=
  data.foldl (fun csv e => csv ++ [csvRow e.1 e.2]) [csvHeader]

/-- The text of the file that `exportData` offers: `csv.join('\n')`. -/
def exportData (data : Store) : String :=
  "\n".intercalate (csvLines data)

/-! ## Example records and stores -/

/-- The record of the end-to-end example: two morning supplements taken, training,
hydration and fasting set, the evening and meal slots missing. -/
def exampleComplete : DayRecord where
  supplements := some { morning := some [("A", true), ("B", true)], evening := none, meal := none }
  training := some "X"
  steps := ""
  hydration := true
  weight := ""
  fasting := some "16/8"
  comments := ""
  mood := []

/-- A record with three true items out of five: hydration and fasting are not set. -/
def exampleThreeOfFive : DayRecord where
  supplements := some { morning := some [("A", true), ("B", true)], evening := none, meal := none }
  training := some "X"
  steps := ""
  hydration := false
  weight := ""
  fasting := none
  comments := ""
  mood := []

/-- A record with four true items out of five: fasting is not set. -/
def exampleFourOfFive : DayRecord where
  supplements := some { morning := some [("A", true), ("B", true)], evening := none, meal := none }
  training := some "X"
  steps := ""
  hydration := true
  weight := ""
  fasting := none
  comments := ""
  mood := []

/-- The store of the end-to-end example. -/
def exampleStore : Store := [("2024-01-08", exampleComplete)]

/-- A store holding the zero-value record. -/
def defaultStore : Store := [("2024-01-08", defaultRecord)]

/-- A store with the three-of-five record. -/
def boundaryStore : Store := [("2024-01-08", exampleThreeOfFive)]

/-- Day number of Monday 2024-01-08. -/
def monday20240108 : Int := 19730

/-- Day number of Sunday 2024-01-07. -/
def sunday20240107 : Int := 19729

/-- Seen from 2024-01-08: complete at offsets 0, 1, 2, incomplete at 3, complete at 4. -/
def gapStore : Store :=
  [("2024-01-08", exampleComplete), ("2024-01-07", exampleComplete),
   ("2024-01-06", exampleComplete), ("2024-01-05", defaultRecord),
   ("2024-01-04", exampleComplete)]

/-- Seen from 2024-01-08: no record today, complete on the two days before. -/
def graceStore : Store :=
  [("2024-01-07", exampleComplete), ("2024-01-06", exampleComplete)]

/-- Seen from 2024-01-08: a complete record on each of the 120 days at offsets 0 to 119. -/
def longStore : Store :=
  (List.range 120).map fun (i : Nat) => (toISODate (monday20240108 - (i : Int)), exampleComplete)

/-- A store whose record for 2024-01-08 has two mood tags. -/
def moodStore : Store :=
  [("2024-01-08", { defaultRecord with mood := ["😊", "💪"] })]

/-- A store whose only record has the weight text `abc`. -/
def abcStore : Store := [("2024-01-08", { defaultRecord with weight := "abc" })]

/-- A store with three records, not in date order, one of them without weight. -/
def weightStore : Store :=
  [("2024-01-08", { defaultRecord with weight := "92.5" }),
   ("2024-01-05", { defaultRecord with weight := "" }),
   ("2024-01-01", { defaultRecord with weight := "95" })]

/-- A store with three fasting days, not in date order, and a day without fasting. -/
def fastingStore : Store :=
  [("2024-01-08", { defaultRecord with fasting := some "16/8" }),
   ("2024-01-02", { defaultRecord with fasting := some "OMAD" }),
   ("2024-01-05", { defaultRecord with fasting := some "16/8" }),
   ("2024-01-03", defaultRecord)]

/-- A store with training on 8 January of two years and on 9 January. -/
def trainingStore : Store :=
  [("2024-01-08", { defaultRecord with training := some "Séance C (Mixte)" }),
   ("2023-01-08", { defaultRecord with training := some "Séance C (Mixte)" }),
   ("2024-01-09", { defaultRecord with training := some "Séance C (Mixte)" })]

/-- The record `{ weight: "92.5", hydration: true }`, the other fields missing. -/
def csvRecord : DayRecord where
  supplements := none
  training := none
  steps := ""
  hydration := true
  weight := "92.5"
  fasting := none
  comments := ""
  mood := []

/-! ## Definitions that follow the words of the claims -/

/-- The length of the run of complete days that starts at offset `i` and goes back, cut
after `n` days. -/
def completeRun (data : Store) (today : Int) : Nat → Nat → Nat
  | 0, _ => 0
  | n + 1, i =>
    if getDayStatus data (toISODate (today - (i : Int))) = "complete" then
      completeRun data today n (i + 1) + 1
    else 0

/-- The place of a status in the order `incomplete < partial < complete`, with `empty`
below them. -/
def statusRank (status : String) : Nat :=
  if status = "complete" then 3
  else if status = "partial" then 2
  else if status = "incomplete" then 1
  else 0

/-- The number of commas of a text. -/
def commaCount (text : String) : Nat := text.data.count ','

/-- A record without supplement entries, with training, hydration and fasting set. -/
def threeSetRecord : DayRecord where
  supplements := some { morning := some [], evening := some [], meal := some [] }
  training := some "Séance C (Mixte)"
  steps := ""
  hydration := true
  weight := ""
  fasting := some "OMAD"
  comments := ""
  mood := []

/-- A store holding `threeSetRecord` for 2024-01-08. -/
def threeSetStore : Store := [("2024-01-08", threeSetRecord)]

/-- The record of the export example with commas in the comments. -/
def commentsRecord : DayRecord := { csvRecord with comments := "a,b,c" }

/-- The record of the export example with a comma in the weight text. -/
def commaWeightRecord : DayRecord := { csvRecord with weight := "92,5" }

/-- A record with every field set: entries in the three slots, some of them false, two
mood tags and commas in the comments. -/
def filledRecord : DayRecord where
  supplements := some
    { morning := some [("NAC 1200mg", true), ("Vitamine C 1000mg", false),
        ("Magnésium 200mg", true)],
      evening := some [("NAC 1200mg", false), ("Électrolytes 500ml", true)],
      meal := some [("Créatine 5g", true), ("Magnésium 200mg", false), ("Zinc 30mg", true)] }
  training := some "Séance C (Mixte)"
  steps := "8000"
  hydration := false
  weight := "91.8"
  fasting := some "16/8"
  comments := "bien, mais fatigué, le soir"
  mood := ["Motivé", "Fatigué"]

/-- A store whose entries are not in the order of their dates: `filledRecord` for
2024-01-09, then the record of the export example for 2024-01-08. -/
def filledStore : Store := [("2024-01-09", filledRecord), ("2024-01-08", csvRecord)]

/-- The range of `Date`: 100 000 000 days on either side of 1970-01-01. -/
def inDateRange (t : Int) : Prop := -100000000 ≤ t ∧ t ≤ 100000000

/-! ## Calendar lemmas -/

theorem dayOfEra_bounds (t : Int) :
    0 ≤ dayOfEra t ∧ dayOfEra t < 146097 ∧ t + 719468 = 146097 * eraOf t + dayOfEra t := by
  unfold dayOfEra eraOf
  omega

theorem century_bounds (doe : Int) (h0 : 0 ≤ doe) (h1 : doe < 146097) :
    0 ≤ centuryOf doe ∧ centuryOf doe ≤ 3 ∧ 0 ≤ dayOfCentury doe ∧ dayOfCentury doe ≤ 36524 := by
  unfold dayOfCentury centuryOf
  split_ifs <;> omega

theorem quad_bounds (doe : Int) (h0 : 0 ≤ doe) (h1 : doe < 146097) :
    0 ≤ quadOf doe ∧ quadOf doe ≤ 24 ∧ 0 ≤ yearOfQuad doe ∧ yearOfQuad doe ≤ 3 ∧
    0 ≤ dayOfYear doe ∧ dayOfYear doe ≤ 365 ∧
    dayOfCentury doe = 1461 * quadOf doe + 365 * yearOfQuad doe + dayOfYear doe := by
  have hc := century_bounds doe h0 h1
  unfold dayOfYear yearOfQuad dayOfQuad quadOf
  generalize dayOfCentury doe = dc at hc ⊢
  split_ifs <;> omega

/-- A day of the era is the start of its March-based year plus its day of the year. -/
theorem yearOfEra_decomp (doe : Int) (h0 : 0 ≤ doe) (h1 : doe < 146097) :
    0 ≤ yearOfEra doe ∧ yearOfEra doe ≤ 399 ∧ 0 ≤ dayOfYear doe ∧ dayOfYear doe ≤ 365 ∧
    doe = 365 * yearOfEra doe + yearOfEra doe / 4 - yearOfEra doe / 100 + dayOfYear doe := by
  have hc := century_bounds doe h0 h1
  have hq := quad_bounds doe h0 h1
  have hd : dayOfCentury doe = doe - 36524 * centuryOf doe := rfl
  unfold yearOfEra
  generalize dayOfCentury doe = dc at *
  generalize centuryOf doe = b at *
  generalize quadOf doe = c at *
  generalize yearOfQuad doe = d at *
  generalize dayOfYear doe = n at *
  have e4 : (100 * b + 4 * c + d) / 4 = 25 * b + c := by omega
  have e100 : (100 * b + 4 * c + d) / 100 = b := by omega
  omega

/-- The year and the day of the year are recovered from the start of a March-based
year plus a day below 365. -/
theorem yearOfEra_recover (yoe doy : Int) (h0 : 0 ≤ yoe) (h1 : yoe ≤ 399) (h2 : 0 ≤ doy)
    (h3 : doy ≤ 364) :
    yearOfEra (365 * yoe + yoe / 4 - yoe / 100 + doy) = yoe ∧
    dayOfYear (365 * yoe + yoe / 4 - yoe / 100 + doy) = doy := by
  obtain ⟨b, r, hb, hr0, hr1, rfl⟩ : ∃ b r : Int, 0 ≤ b ∧ 0 ≤ r ∧ r ≤ 99 ∧ yoe = 100 * b + r :=
    ⟨yoe / 100, yoe % 100, by omega, by omega, by omega, by omega⟩
  obtain ⟨c, d, hc, hd0, hd1, rfl⟩ : ∃ c d : Int, 0 ≤ c ∧ 0 ≤ d ∧ d ≤ 3 ∧ r = 4 * c + d :=
    ⟨r / 4, r % 4, by omega, by omega, by omega, by omega⟩
  have e4 : (100 * b + (4 * c + d)) / 4 = 25 * b + c := by omega
  have e100 : (100 * b + (4 * c + d)) / 100 = b := by omega
  rw [e4, e100]
  have hdoe : 365 * (100 * b + (4 * c + d)) + (25 * b + c) - b + doy
      = 36524 * b + (1461 * c + (365 * d + doy)) := by ring
  rw [hdoe]
  generalize 36524 * b + (1461 * c + (365 * d + doy)) = doe at *
  have k1 : centuryOf doe = b := by unfold centuryOf; split_ifs <;> omega
  have k2 : dayOfCentury doe = 1461 * c + (365 * d + doy) := by unfold dayOfCentury; omega
  have k3 : quadOf doe = c := by unfold quadOf; omega
  have k4 : dayOfQuad doe = 365 * d + doy := by unfold dayOfQuad; omega
  have k5 : yearOfQuad doe = d := by unfold yearOfQuad; split_ifs <;> omega
  unfold dayOfYear yearOfEra
  omega

theorem getMonth_bounds (t : Int) : 0 ≤ getMonth t ∧ getMonth t ≤ 11 := by
  have hb := dayOfEra_bounds t
  have hy := yearOfEra_decomp (dayOfEra t) hb.1 hb.2.1
  unfold getMonth marchMonth
  generalize dayOfYear (dayOfEra t) = doy at *
  simp only
  split_ifs <;> omega

theorem getDate_bounds (t : Int) : 1 ≤ getDate t ∧ getDate t ≤ 31 := by
  have hb := dayOfEra_bounds t
  have hy := yearOfEra_decomp (dayOfEra t) hb.1 hb.2.1
  unfold getDate marchMonth marchMonthStart
  generalize dayOfYear (dayOfEra t) = doy at *
  simp only
  omega

/-- The first day of the month of a March-based date. -/
theorem firstOfMonth_march (era yoe mp : Int) (h0 : 0 ≤ yoe) (h1 : yoe ≤ 399) (h2 : 0 ≤ mp)
    (h3 : mp ≤ 11) :
    firstOfMonth (400 * era + yoe + (if mp < 10 then 0 else 1))
        (if mp < 10 then mp + 2 else mp - 10)
      = 146097 * era + (365 * yoe + yoe / 4 - yoe / 100) + marchMonthStart mp - 719468 := by
  unfold firstOfMonth
  by_cases h : mp < 10
  · have c1 : ¬ (mp + 2 < 2) := by omega
    have c2 : mp + 2 - 2 = mp := by omega
    simp only [h, if_true, c1, if_false, c2]
    generalize marchMonthStart mp = ms
    omega
  · have c1 : mp - 10 < 2 := by omega
    have c2 : mp - 10 + 10 = mp := by omega
    simp only [h, if_false, c1, if_true, c2]
    generalize marchMonthStart mp = ms
    omega

/-- The method `setDate` moves inside the calendar by the difference of the dates: the
day numbers of a month are consecutive. -/
theorem setDate_eq (t date : Int) : setDate t date = t - getDate t + date := by
  have hb := dayOfEra_bounds t
  have hy := yearOfEra_decomp (dayOfEra t) hb.1 hb.2.1
  have hm := getMonth_bounds t
  have hmp : 0 ≤ marchMonth (dayOfYear (dayOfEra t)) ∧
      marchMonth (dayOfYear (dayOfEra t)) ≤ 11 := by
    unfold marchMonth; omega
  unfold setDate makeDay
  have e1 : getMonth t / 12 = 0 := by omega
  have e2 : getMonth t % 12 = getMonth t := by omega
  rw [e1, e2]
  have hf := firstOfMonth_march (eraOf t) (yearOfEra (dayOfEra t))
    (marchMonth (dayOfYear (dayOfEra t))) hy.1 hy.2.1 hmp.1 hmp.2
  have hy' : getFullYear t + 0 = 400 * eraOf t + yearOfEra (dayOfEra t)
      + (if marchMonth (dayOfYear (dayOfEra t)) < 10 then 0 else 1) := by
    unfold getFullYear; simp
  have hm' : getMonth t = (if marchMonth (dayOfYear (dayOfEra t)) < 10
      then marchMonth (dayOfYear (dayOfEra t)) + 2
      else marchMonth (dayOfYear (dayOfEra t)) - 10) := rfl
  rw [hy', hm', hf]
  unfold getDate
  simp only
  generalize marchMonthStart (marchMonth (dayOfYear (dayOfEra t))) = ms
  omega

theorem setDate_getDate_add (t k : Int) : setDate t (getDate t + k) = t + k := by
  rw [setDate_eq]; omega

theorem marchMonth_start (mp : Int) (h0 : 0 ≤ mp) (h1 : mp ≤ 11) :
    marchMonth (marchMonthStart mp) = mp := by
  unfold marchMonth marchMonthStart
  interval_cases mp <;> rfl

/-- The first day of a month has date 1. -/
theorem getDate_makeDay_one (year month : Int) : getDate (makeDay year month 1) = 1 := by
  unfold makeDay firstOfMonth
  generalize year + month / 12 = ym
  have hmn : 0 ≤ month % 12 ∧ month % 12 ≤ 11 := by omega
  generalize month % 12 = mn at hmn
  simp only
  generalize hy : (if mn < 2 then ym - 1 else ym) = y
  generalize hmp : (if mn < 2 then mn + 10 else mn - 2) = mp
  have hmp' : 0 ≤ mp ∧ mp ≤ 11 := by split_ifs at hmp <;> omega
  have hs : 0 ≤ marchMonthStart mp ∧ marchMonthStart mp ≤ 337 := by
    unfold marchMonthStart; omega
  have hr := yearOfEra_recover (y % 400) (marchMonthStart mp) (by omega) (by omega) hs.1
    (by omega)
  have hdoe : dayOfEra (146097 * (y / 400) + (365 * (y % 400) + y % 400 / 4 - y % 400 / 100)
      + marchMonthStart mp - 719468 + 1 - 1)
      = 365 * (y % 400) + y % 400 / 4 - y % 400 / 100 + marchMonthStart mp := by
    unfold dayOfEra; omega
  unfold getDate
  rw [hdoe, hr.2]
  dsimp only
  rw [marchMonth_start mp hmp'.1 hmp'.2]
  omega

/-! ## The double product against the exact ratio -/

theorem bitLenAux_spec (fuel : Nat) : ∀ n, n ≤ fuel →
    (n = 0 → bitLenAux fuel n = 0) ∧
    (0 < n → 2 ^ (bitLenAux fuel n - 1) ≤ n ∧ n < 2 ^ bitLenAux fuel n) := by
  induction fuel with
  | zero =>
    intro n hn
    have : n = 0 := by omega
    subst this
    exact ⟨fun _ => rfl, fun h => absurd h (by decide)⟩
  | succ f ih =>
    intro n hn
    refine ⟨fun h => by simp [bitLenAux, h], fun hpos => ?_⟩
    have hne : n ≠ 0 := by omega
    simp only [bitLenAux, hne, if_false, Nat.add_sub_cancel]
    have ih' := ih (n / 2) (by omega)
    by_cases h2 : n / 2 = 0
    · rw [ih'.1 h2]
      have : n = 1 := by omega
      subst this
      simp
    · have hp := ih'.2 (by omega)
      obtain ⟨k, hk⟩ : ∃ k, bitLenAux f (n / 2) = k + 1 := by
        rcases hb : bitLenAux f (n / 2) with _ | k
        · rw [hb] at hp; simp at hp; omega
        · exact ⟨k, rfl⟩
      rw [hk] at hp ⊢
      simp only [Nat.add_sub_cancel] at hp
      rw [pow_succ, pow_succ]
      rw [pow_succ] at hp
      omega

theorem bitLen_spec (n : Nat) (h : 0 < n) : 2 ^ (bitLen n - 1) ≤ n ∧ n < 2 ^ bitLen n :=
  (bitLenAux_spec n n (le_refl n)).2 h

theorem exceeds_small (d t : Nat) (ht : t ≤ 1) :
    exceedsSixTenths d t = true ↔ 5 * d > 3 * t := by
  have h : t = 0 ∨ t = 1 := by omega
  rcases h with rfl | rfl
  · have : exceedsSixTenths d 0 = decide (d * 2 ^ 53 > 0) := by
      unfold exceedsSixTenths; rfl
    rw [this]; simp
  · have : exceedsSixTenths d 1 = decide (d * 2 ^ 53 > 5404319552844595) := by
      unfold exceedsSixTenths; rfl
    rw [this]; simp only [decide_eq_true_eq]; norm_num; omega

theorem exceeds_case (d t b : Nat) (hb : bitLen (t * sixTenthsNum) = b) (hb0 : 54 ≤ b)
    (hb1 : b ≤ 85) (h1 : 2 ^ (b - 1) ≤ t * sixTenthsNum) (h2 : t * sixTenthsNum < 2 ^ b) :
    exceedsSixTenths d t = true ↔ 5 * d > 3 * t := by
  unfold exceedsSixTenths timesSixTenths roundDouble roundHalfEven
  rw [hb]
  simp only [decide_eq_true_eq]
  unfold sixTenthsNum at *
  clear hb
  interval_cases b <;> norm_num at h1 h2 ⊢ <;> split_ifs <;> omega

/-- For an array length `t` (below `2^32`) the double comparison `d > t * 0.6` agrees
with the exact comparison `d / t > 3 / 5`. -/
theorem exceedsSixTenths_iff (d t : Nat) (ht : t < 2 ^ 32) :
    exceedsSixTenths d t = true ↔ 5 * d > 3 * t := by
  by_cases hs : t ≤ 1
  · exact exceeds_small d t hs
  · have hpos : 0 < t * sixTenthsNum := by unfold sixTenthsNum; omega
    have hsp := bitLen_spec (t * sixTenthsNum) hpos
    have hlo : 2 ^ 53 ≤ t * sixTenthsNum := by unfold sixTenthsNum; norm_num; omega
    have hhi : t * sixTenthsNum < 2 ^ 85 := by
      unfold sixTenthsNum; norm_num at ht ⊢; omega
    have hb0 : 54 ≤ bitLen (t * sixTenthsNum) := by
      by_contra hc
      have : 2 ^ bitLen (t * sixTenthsNum) ≤ 2 ^ 53 :=
        Nat.pow_le_pow_right (by decide) (by omega)
      omega
    have hb1 : bitLen (t * sixTenthsNum) ≤ 85 := by
      by_contra hc
      have : 2 ^ 85 ≤ 2 ^ (bitLen (t * sixTenthsNum) - 1) :=
        Nat.pow_le_pow_right (by decide) (by omega)
      omega
    exact exceeds_case d t _ rfl hb0 hb1 hsp.1 hsp.2

/-! ## Classifier lemmas -/

theorem completedChecks_le (checks : List Bool) : completedChecks checks ≤ checks.length :=
  List.length_filter_le _ _

theorem completedChecks_eq_length_iff (checks : List Bool) :
    completedChecks checks = checks.length ↔ ∀ b ∈ checks, b = true := by
  unfold completedChecks
  rw [List.filter_length_eq_length]
  simp

theorem classify_eq_complete_iff (checks : List Bool) :
    classify checks = "complete" ↔ completedChecks checks = checks.length := by
  unfold classify
  simp only
  split_ifs with h1 h2
  · simp [h1]
  · simp only [h1, iff_false]; decide
  · simp only [h1, iff_false]; decide

theorem classify_ne_empty (checks : List Bool) : classify checks ≠ "empty" := by
  unfold classify
  simp only
  split_ifs <;> decide

theorem getDayStatus_of_lookup (data : Store) (date : String) (dayData : DayRecord)
    (h : data.lookup date = some dayData) :
    getDayStatus data date = classify (totalChecks dayData) := by
  unfold getDayStatus
  rw [h]

theorem slotValues_length (slot : Option SlotMap) : (slotValues slot).length = slotCount slot := by
  cases slot <;> simp [slotValues, slotCount]

theorem totalChecks_length (dayData : DayRecord) :
    (totalChecks dayData).length
      = slotCount (dayData.supplements.bind Supplements.morning)
        + slotCount (dayData.supplements.bind Supplements.evening)
        + slotCount (dayData.supplements.bind Supplements.meal) + 3 := by
  unfold totalChecks
  simp only [List.length_append, slotValues_length, List.length_cons, List.length_nil]

/-! ## Streak lemmas -/

theorem streakDateStr_eq (today : Int) (i : Nat) :
    streakDateStr today i = toISODate (today - i) := by
  unfold streakDateStr
  rw [setDate_eq]
  congr 1
  omega

/-- A run of `m` complete days from iteration `i` on adds `m` to the streak. -/
theorem streakLoop_run (data : Store) (today : Int) : ∀ (m n i s : Nat),
    (∀ j : Nat, j < m → getDayStatus data (toISODate (today - ((i + j : Nat) : Int))) = "complete") →
    streakLoop data today (m + n) i s = streakLoop data today n (i + m) (s + m) := by
  intro m
  induction m with
  | zero => intro n i s _; simp
  | succ m ih =>
    intro n i s h
    have e : m + 1 + n = (m + n) + 1 := by omega
    have h0 : getDayStatus data (streakDateStr today i) = "complete" := by
      rw [streakDateStr_eq]; simpa using h 0 (by omega)
    rw [e, streakLoop, if_pos h0, ih n (i + 1) (s + 1)]
    · congr 1 <;> omega
    · intro j hj
      have := h (j + 1) (by omega)
      have e2 : i + 1 + j = i + (j + 1) := by omega
      rw [e2]; exact this

/-- After iteration 0 the loop breaks at a day that is not complete. -/
theorem streakLoop_break (data : Store) (today : Int) (n i s : Nat) (hi : 0 < i)
    (h : getDayStatus data (toISODate (today - i)) ≠ "complete") :
    streakLoop data today (n + 1) i s = s := by
  have h0 : ¬ getDayStatus data (streakDateStr today i) = "complete" := by
    rw [streakDateStr_eq]; exact h
  rw [streakLoop, if_neg h0, if_pos hi]

/-- Iteration 0 does not break: a current date that is not complete is passed over. -/
theorem streakLoop_skip (data : Store) (today : Int) (n s : Nat)
    (h : getDayStatus data (toISODate today) ≠ "complete") :
    streakLoop data today (n + 1) 0 s = streakLoop data today n 1 s := by
  have h0 : ¬ getDayStatus data (streakDateStr today 0) = "complete" := by
    rw [streakDateStr_eq]; simpa using h
  rw [streakLoop, if_neg h0, if_neg (by decide)]

/-! ## Range lemmas -/

theorem startOfWeek_eq (today weekOffset : Int) :
    startOfWeek today weekOffset = today - getDay today + 1 + weekOffset * 7 := by
  unfold startOfWeek
  rw [setDate_eq]
  omega

theorem getDay_startOfWeek (today weekOffset : Int) :
    getDay (startOfWeek today weekOffset) = 1 := by
  rw [startOfWeek_eq]
  unfold getDay
  omega

theorem getWeekDates_eq (today weekOffset : Int) :
    getWeekDates today weekOffset
      = (List.range 7).map fun (i : Nat) => toISODate (startOfWeek today weekOffset + (i : Int)) := by
  unfold getWeekDates
  simp only [setDate_getDate_add]

theorem getDate_targetMonth (today monthOffset : Int) :
    getDate (targetMonth today monthOffset) = 1 := by
  unfold targetMonth newDate
  exact getDate_makeDay_one _ _

theorem startDate_eq (today monthOffset : Int) :
    startDate today monthOffset
      = targetMonth today monthOffset - 1
        + (if getDay (targetMonth today monthOffset) = 0 then -6
           else 1 - getDay (targetMonth today monthOffset)) := by
  unfold startDate
  simp only
  rw [setDate_eq, getDate_targetMonth]

theorem getDay_startDate (today monthOffset : Int) :
    getDay (startDate today monthOffset) = 0 := by
  rw [startDate_eq]
  unfold getDay
  split_ifs <;> omega

theorem startDate_before (today monthOffset : Int) :
    targetMonth today monthOffset - 7 ≤ startDate today monthOffset ∧
    startDate today monthOffset < targetMonth today monthOffset := by
  rw [startDate_eq]
  unfold getDay
  split_ifs <;> omega

theorem getMonthDates_eq (today monthOffset : Int) :
    getMonthDates today monthOffset
      = (List.range 42).map fun (i : Nat) => toISODate (startDate today monthOffset + (i : Int)) := by
  unfold getMonthDates
  simp only [setDate_getDate_add]

/-! ## The claims -/

/-- C1, as stated, fails: on 2024-01-08 with no record for that day and complete records
for the two days before, the current date is not complete and `getStreak` returns 2. -/
theorem getStreak_today_not_complete_counterexample :
    ¬ ∀ (data : Store) (today : Int),
      getDayStatus data (toISODate today) ≠ "complete" → getStreak data today = 0 := by
  intro h
  have h1 := h graceStore monday20240108 (by decide)
  revert h1
  decide

/-- C1, amended: when the current date is not complete the loop passes over it, and
`getStreak` returns the number `k` of consecutive complete days counted back from
yesterday: offsets `1..k` complete and offset `k + 1` not complete, or `k = 99` with all
of the offsets `1..99` complete. It is 0 when yesterday is not complete either. -/
theorem getStreak_today_not_complete (data : Store) (today : Int) (k : Nat) (hk : k ≤ 99)
    (h0 : getDayStatus data (toISODate today) ≠ "complete")
    (hc : ∀ i : Nat, 1 ≤ i → i ≤ k →
      getDayStatus data (toISODate (today - (i : Int))) = "complete")
    (hn : k < 99 → getDayStatus data (toISODate (today - ((k + 1 : Nat) : Int))) ≠ "complete") :
    getStreak data today = k := by
  unfold getStreak
  rw [streakLoop_skip data today 99 0 h0]
  have e : 99 = k + (99 - k) := by omega
  rw [e, streakLoop_run data today k (99 - k) 1 0
    (fun j hj => hc (1 + j) (by omega) (by omega))]
  by_cases h99 : k < 99
  · obtain ⟨n, hn'⟩ : ∃ n, 99 - k = n + 1 := ⟨98 - k, by omega⟩
    rw [hn', streakLoop_break data today n (1 + k) (0 + k) (by omega)]
    · omega
    · have e2 : 1 + k = k + 1 := by omega
      rw [e2]; exact hn h99
  · have e3 : 99 - k = 0 := by omega
    rw [e3, streakLoop]
    omega

/-- Witness of C1, amended: the store with no record on 2024-01-08 and complete records
on the two days before gives 2. -/
theorem getStreak_today_not_complete_witness :
    getDayStatus graceStore (toISODate monday20240108) ≠ "complete" ∧
    getStreak graceStore monday20240108 = 2 :=
  ⟨by decide,
   getStreak_today_not_complete graceStore monday20240108 2 (by decide) (by decide)
     (by decide) (by decide)⟩

/-- C2 at a failing input and in general: `getMonthDates` returns 42 keys, but the first
one is the key of a Sunday, the one strictly before the 1st of the target month (1 to 7
days before it). In January 2024, whose 1st is a Monday, the first key is 2023-12-31 and
not 2024-01-01. -/
theorem getMonthDates_starts_on_sunday :
    (toISODate (targetMonth sunday20240107 0) = "2024-01-01" ∧
      getDay (targetMonth sunday20240107 0) = 1 ∧
      (getMonthDates sunday20240107 0).head? = some "2023-12-31") ∧
    ∀ today monthOffset : Int,
      (getMonthDates today monthOffset).length = 42 ∧
      (getMonthDates today monthOffset).head? = some (toISODate (startDate today monthOffset)) ∧
      getDay (startDate today monthOffset) = 0 ∧
      targetMonth today monthOffset - 7 ≤ startDate today monthOffset ∧
      startDate today monthOffset < targetMonth today monthOffset := by
  have hhead : ∀ today monthOffset : Int,
      (getMonthDates today monthOffset).head? = some (toISODate (startDate today monthOffset)) := by
    intro today monthOffset
    rw [getMonthDates_eq]
    simp [List.range_succ_eq_map]
  refine ⟨⟨by decide, by decide, ?_⟩, ?_⟩
  · rw [hhead]; decide
  · intro today monthOffset
    refine ⟨by simp [getMonthDates], hhead today monthOffset, getDay_startDate today monthOffset,
      startDate_before today monthOffset⟩

/-- C3 at a failing input and in general: on a Sunday the week at offset 0 starts on the
next day. On Sunday 2024-01-07 the first key is 2024-01-08, not 2024-01-01, and the week
does not contain 2024-01-07. On the other weekdays the first key is the Monday
`getDay today - 1` days earlier. -/
theorem getWeekDates_on_sunday :
    (getDay sunday20240107 = 0 ∧ toISODate sunday20240107 = "2024-01-07" ∧
      toISODate (sunday20240107 - 6) = "2024-01-01" ∧
      (getWeekDates sunday20240107 0).head? = some "2024-01-08" ∧
      "2024-01-07" ∉ getWeekDates sunday20240107 0) ∧
    (∀ today : Int, getDay today = 0 → startOfWeek today 0 = today + 1) ∧
    (∀ today : Int, getDay today ≠ 0 → startOfWeek today 0 = today - (getDay today - 1)) := by
  refine ⟨⟨by decide, by decide, by decide, by decide, by decide⟩, ?_, ?_⟩
  · intro today h
    rw [startOfWeek_eq, h]; omega
  · intro today _
    rw [startOfWeek_eq]; omega

/-- C4: for every current date and week offset `getWeekDates` returns 7 keys, the keys
of the 7 consecutive days from `startOfWeek`, and `startOfWeek` is a Monday. -/
theorem getWeekDates_seven_from_monday (today weekOffset : Int) :
    (getWeekDates today weekOffset).length = 7 ∧
    (getWeekDates today weekOffset).head? = some (toISODate (startOfWeek today weekOffset)) ∧
    getDay (startOfWeek today weekOffset) = 1 ∧
    getWeekDates today weekOffset
      = (List.range 7).map fun (i : Nat) =>
          toISODate (startOfWeek today weekOffset + (i : Int)) := by
  refine ⟨by simp [getWeekDates], ?_, getDay_startOfWeek today weekOffset,
    getWeekDates_eq today weekOffset⟩
  rw [getWeekDates_eq]
  simp [List.range_succ_eq_map]

/-- C5: for a date with a record, `getDayStatus` is `complete` exactly when every item of
the checklist `totalChecks` is true, that is when done equals total. -/
theorem getDayStatus_complete_iff (data : Store) (date : String) (dayData : DayRecord)
    (h : data.lookup date = some dayData) :
    (getDayStatus data date = "complete" ↔ ∀ b ∈ totalChecks dayData, b = true) ∧
    (getDayStatus data date = "complete" ↔
      completedChecks (totalChecks dayData) = (totalChecks dayData).length) := by
  rw [getDayStatus_of_lookup data date dayData h, classify_eq_complete_iff,
    completedChecks_eq_length_iff]
  exact ⟨Iff.rfl, Iff.rfl⟩

/-- Witness of C5: the record of the end-to-end example has five true items and is
`complete`. -/
theorem getDayStatus_complete_iff_witness :
    exampleStore.lookup "2024-01-08" = some exampleComplete ∧
    totalChecks exampleComplete = [true, true, true, true, true] ∧
    getDayStatus exampleStore "2024-01-08" = "complete" :=
  ⟨by decide, by decide,
   (getDayStatus_complete_iff exampleStore "2024-01-08" exampleComplete (by decide)).1.2
     (by decide)⟩

/-- C6: for a date with a record whose checklist (an array, so shorter than `2^32`) is
not all true, `getDayStatus` is `incomplete` exactly when `5 * done ≤ 3 * total` and
`partial` exactly when `5 * done > 3 * total`; in both cases `done < total`. -/
theorem getDayStatus_threshold (data : Store) (date : String) (dayData : DayRecord)
    (h : data.lookup date = some dayData)
    (hlen : (totalChecks dayData).length < 2 ^ 32)
    (hne : completedChecks (totalChecks dayData) ≠ (totalChecks dayData).length) :
    (getDayStatus data date = "incomplete" ↔
      5 * completedChecks (totalChecks dayData) ≤ 3 * (totalChecks dayData).length) ∧
    (getDayStatus data date = "partial" ↔
      5 * completedChecks (totalChecks dayData) > 3 * (totalChecks dayData).length) ∧
    completedChecks (totalChecks dayData) < (totalChecks dayData).length := by
  have hle := completedChecks_le (totalChecks dayData)
  have hx := exceedsSixTenths_iff (completedChecks (totalChecks dayData))
    (totalChecks dayData).length hlen
  rw [getDayStatus_of_lookup data date dayData h]
  unfold classify
  simp only [hne, if_false]
  by_cases hgt : 5 * completedChecks (totalChecks dayData) > 3 * (totalChecks dayData).length
  · rw [if_pos (hx.2 hgt)]
    refine ⟨⟨fun hc => absurd hc (by decide), fun hc => by omega⟩, ⟨fun _ => hgt, fun _ => rfl⟩,
      by omega⟩
  · have hf : ¬ exceedsSixTenths (completedChecks (totalChecks dayData))
        (totalChecks dayData).length = true := fun hc => hgt (hx.1 hc)
    rw [if_neg hf]
    refine ⟨⟨fun _ => by omega, fun _ => rfl⟩,
      ⟨fun hc => absurd hc (by decide), fun hc => absurd hc hgt⟩, by omega⟩

/-- Witness of C6: three true items out of five, the ratio 0.6 itself, is `incomplete`. -/
theorem getDayStatus_threshold_witness :
    completedChecks (totalChecks exampleThreeOfFive) = 3 ∧
    (totalChecks exampleThreeOfFive).length = 5 ∧
    getDayStatus boundaryStore "2024-01-08" = "incomplete" :=
  ⟨by decide, by decide,
   (getDayStatus_threshold boundaryStore "2024-01-08" exampleThreeOfFive (by decide)
     (by decide) (by decide)).1.2 (by decide)⟩

/-- C7: `getDayStatus` is `empty` exactly when the store has no record for the date; a
stored record equal to the zero-value default is `incomplete`. -/
theorem getDayStatus_empty_iff (data : Store) (date : String) :
    (getDayStatus data date = "empty" ↔ data.lookup date = none) ∧
    (data.lookup date = some defaultRecord → getDayStatus data date = "incomplete") := by
  constructor
  · constructor
    · intro hs
      cases hl : data.lookup date with
      | none => rfl
      | some r =>
        rw [getDayStatus_of_lookup data date r hl] at hs
        exact absurd hs (classify_ne_empty _)
    · intro hl
      unfold getDayStatus
      rw [hl]
  · intro hl
    rw [getDayStatus_of_lookup data date defaultRecord hl]
    decide

/-- Witness of C7: a store holding the zero-value record for 2024-01-08 classifies that
date as `incomplete`, and a date without record as `empty`. -/
theorem getDayStatus_empty_iff_witness :
    defaultStore.lookup "2024-01-08" = some defaultRecord ∧
    getDayStatus defaultStore "2024-01-08" = "incomplete" ∧
    getDayStatus defaultStore "2024-01-09" = "empty" :=
  ⟨by decide,
   (getDayStatus_empty_iff defaultStore "2024-01-08").2 (by decide),
   (getDayStatus_empty_iff defaultStore "2024-01-09").1.2 (by decide)⟩

/-- C8: for a date with a record, the checklist classified by `getDayStatus` has as many
items as there are entries in the morning, evening and meal mappings of the record (a
missing mapping counting for none) plus 3; with no supplement entry it has 3 items. -/
theorem getDayStatus_total (data : Store) (date : String) (dayData : DayRecord)
    (h : data.lookup date = some dayData) :
    getDayStatus data date = classify (totalChecks dayData) ∧
    (totalChecks dayData).length
      = slotCount (dayData.supplements.bind Supplements.morning)
        + slotCount (dayData.supplements.bind Supplements.evening)
        + slotCount (dayData.supplements.bind Supplements.meal) + 3 ∧
    (slotCount (dayData.supplements.bind Supplements.morning)
        + slotCount (dayData.supplements.bind Supplements.evening)
        + slotCount (dayData.supplements.bind Supplements.meal) = 0 →
      (totalChecks dayData).length = 3) := by
  refine ⟨getDayStatus_of_lookup data date dayData h, totalChecks_length dayData, ?_⟩
  intro h0
  rw [totalChecks_length, h0]

/-- Witness of C8: the zero-value record has no supplement entry and a checklist of 3
items; the example record has 2 entries and a checklist of 5 items. -/
theorem getDayStatus_total_witness :
    (totalChecks defaultRecord).length = 3 ∧ (totalChecks exampleComplete).length = 5 :=
  ⟨(getDayStatus_total defaultStore "2024-01-08" defaultRecord (by decide)).2.2 (by decide),
   by
    have h := (getDayStatus_total exampleStore "2024-01-08" exampleComplete (by decide)).2.1
    rw [h]; decide⟩

/-- The checklist of a record always holds the entries of training, hydration and
fasting: it has at least 3 items and is never empty, so the rule is never applied to a
total of 0. -/
theorem totalChecks_never_empty (dayData : DayRecord) :
    3 ≤ (totalChecks dayData).length ∧ totalChecks dayData ≠ [] := by
  have h := totalChecks_length dayData
  refine ⟨by omega, ?_⟩
  intro hnil
  rw [hnil] at h
  simp at h

/-- C10: when the days at offsets `0..k-1` are complete and the day at offset `k` is not
(`1 ≤ k ≤ 99`), `getStreak` returns `k`, whatever the days further back are. -/
theorem getStreak_stops_at_first_gap (data : Store) (today : Int) (k : Nat) (hk1 : 1 ≤ k)
    (hk2 : k ≤ 99)
    (hc : ∀ i : Nat, i < k → getDayStatus data (toISODate (today - (i : Int))) = "complete")
    (hn : getDayStatus data (toISODate (today - (k : Int))) ≠ "complete") :
    getStreak data today = k := by
  unfold getStreak
  obtain ⟨n, hn'⟩ : ∃ n, 100 = k + (n + 1) := ⟨99 - k, by omega⟩
  rw [hn', streakLoop_run data today k (n + 1) 0 0
    (fun j hj => by simpa using hc j hj)]
  rw [streakLoop_break data today n (0 + k) (0 + k) (by omega)]
  · omega
  · simpa using hn

/-- Witness of C10: complete at offsets 0, 1, 2, incomplete at 3, complete at 4 gives 3. -/
theorem getStreak_stops_at_first_gap_witness :
    (∀ i : Nat, i < 3 →
      getDayStatus gapStore (toISODate (monday20240108 - (i : Int))) = "complete") ∧
    getDayStatus gapStore (toISODate (monday20240108 - 3)) = "incomplete" ∧
    getDayStatus gapStore (toISODate (monday20240108 - 4)) = "complete" ∧
    getStreak gapStore monday20240108 = 3 :=
  ⟨by decide, by decide, by decide,
   getStreak_stops_at_first_gap gapStore monday20240108 3 (by decide) (by decide)
     (by decide) (by decide)⟩

/-! ## The claims, continued -/

theorem streakLoop_le (data : Store) (today : Int) :
    ∀ n i s : Nat, streakLoop data today n i s ≤ s + n := by
  intro n
  induction n with
  | zero => intro i s; simp [streakLoop]
  | succ n ih =>
    intro i s
    rw [streakLoop]
    split_ifs
    · have := ih (i + 1) (s + 1); omega
    · omega
    · have := ih (i + 1) s; omega

/-- In a store whose records are all equal to `r`, every key of the store is classified
as `r` is. -/
theorem getDayStatus_const (data : Store) (r : DayRecord) (h : ∀ e ∈ data, e.2 = r)
    (k : String) (hk : k ∈ data.map Prod.fst) :
    getDayStatus data k = classify (totalChecks r) := by
  have hl : data.lookup k = some r := by
    induction data with
    | nil => simp at hk
    | cons e es ih =>
      obtain ⟨a, b⟩ := e
      have hb : b = r := h (a, b) (by simp)
      by_cases hka : k = a
      · subst hka; simp [hb]
      · have hne : (k == a) = false := by simpa using hka
        rw [List.lookup_cons, hne]
        apply ih
        · intro e he; exact h e (by simp [he])
        · simp only [List.map_cons, List.mem_cons] at hk
          rcases hk with hk | hk
          · exact absurd hk hka
          · exact hk
  exact getDayStatus_of_lookup data k r hl

/-- C11: `getStreak` is at most 100 (and at least 0, as a count), and it is exactly 100
when the 100 days at offsets `0..99` are all complete, whatever the days before are. -/
theorem getStreak_cap (data : Store) (today : Int) :
    0 ≤ getStreak data today ∧ getStreak data today ≤ 100 ∧
    ((∀ i : Nat, i < 100 → getDayStatus data (toISODate (today - (i : Int))) = "complete") →
      getStreak data today = 100) := by
  refine ⟨Nat.zero_le _, ?_, ?_⟩
  · have := streakLoop_le data today 100 0 0
    unfold getStreak; omega
  · intro h
    unfold getStreak
    have e : 100 = 100 + 0 := rfl
    rw [e, streakLoop_run data today 100 0 0 0 (fun j hj => by simpa using h j hj)]
    simp [streakLoop]

/-- Witness of C11: with a complete record on each of the 120 days up to 2024-01-08 the
streak is 100. -/
theorem getStreak_cap_witness : getStreak longStore monday20240108 = 100 := by
  refine (getStreak_cap longStore monday20240108).2.2 ?_
  intro i hi
  have hc : classify (totalChecks exampleComplete) = "complete" := by decide
  rw [← hc]
  apply getDayStatus_const
  · intro e he
    simp only [longStore, List.mem_map] at he
    obtain ⟨j, _, rfl⟩ := he
    rfl
  · simp only [longStore, List.map_map, List.mem_map, List.mem_range]
    exact ⟨i, by omega, rfl⟩

/-! ## Object lemmas -/

theorem lookup_none_of_not_mem {β : Type} (o : List (String × β)) (k : String)
    (h : k ∉ o.map Prod.fst) : o.lookup k = none := by
  rw [List.lookup_eq_none_iff]
  intro p hp
  simp only [bne_iff_ne, ne_eq]
  intro hk
  exact h (by rw [hk]; exact List.mem_map_of_mem _ hp)

theorem lookup_mid_self {β : Type} (a b : List (String × β)) (k : String) (v : β)
    (h : k ∉ a.map Prod.fst) : (a ++ (k, v) :: b).lookup k = some v := by
  rw [List.lookup_append, lookup_none_of_not_mem a k h]
  simp

theorem lookup_mid_ne {β : Type} (a b : List (String × β)) (k k' : String) (v : β)
    (h : k' ≠ k) : (a ++ (k, v) :: b).lookup k' = (a ++ b).lookup k' := by
  have hne : (k' == k) = false := by simpa using h
  rw [List.lookup_append, List.lookup_append, List.lookup_cons, hne]

theorem lookup_objReplace_self {β : Type} (o : List (String × β)) (k : String) (v : β)
    (h : k ∈ o.map Prod.fst) : (objReplace o k v).lookup k = some v := by
  induction o with
  | nil => simp at h
  | cons e es ih =>
    obtain ⟨a, b⟩ := e
    by_cases hak : a = k
    · subst hak
      simp [objReplace]
    · have hne : (k == a) = false := by
        simp only [beq_eq_false_iff_ne, ne_eq]
        exact fun hc => hak hc.symm
      have hmem : k ∈ es.map Prod.fst := by
        simp only [List.map_cons, List.mem_cons] at h
        rcases h with h | h
        · exact absurd h.symm hak
        · exact h
      have := ih hmem
      simp only [objReplace] at this ⊢
      simp only [List.map_cons, hak, if_false, List.lookup_cons, hne]
      exact this

theorem lookup_objReplace_ne {β : Type} (o : List (String × β)) (k k' : String) (v : β)
    (h : k' ≠ k) : (objReplace o k v).lookup k' = o.lookup k' := by
  have hne : (k' == k) = false := by simpa using h
  induction o with
  | nil => rfl
  | cons e es ih =>
    obtain ⟨a, b⟩ := e
    simp only [objReplace] at ih ⊢
    by_cases hak : a = k
    · subst hak
      simp only [List.map_cons, if_true, List.lookup_cons, hne]
      exact ih
    · simp only [List.map_cons, hak, if_false, List.lookup_cons]
      rw [ih]

theorem keys_objReplace {β : Type} (o : List (String × β)) (k : String) (v : β) :
    (objReplace o k v).map Prod.fst = o.map Prod.fst := by
  unfold objReplace
  rw [List.map_map]
  apply List.map_congr_left
  intro e _
  by_cases h : e.1 = k <;> simp [h]

theorem objInsertNew_split {β : Type} (o : List (String × β)) (k : String) (v : β) :
    ∃ a b, o = a ++ b ∧ objInsertNew o k v = a ++ (k, v) :: b := by
  unfold objInsertNew
  cases arrayIndex k with
  | none => exact ⟨o, [], by simp, by simp⟩
  | some n => exact ⟨_, _, (List.takeWhile_append_dropWhile _ o).symm, rfl⟩

theorem lookup_objSet_self {β : Type} (o : List (String × β)) (k : String) (v : β) :
    (objSet o k v).lookup k = some v := by
  unfold objSet
  split_ifs with h
  · exact lookup_objReplace_self o k v h
  · obtain ⟨a, b, hab, hins⟩ := objInsertNew_split o k v
    rw [hins]
    apply lookup_mid_self
    intro hc
    exact h (by rw [hab]; simp [hc])

theorem lookup_objSet_ne {β : Type} (o : List (String × β)) (k k' : String) (v : β)
    (h : k' ≠ k) : (objSet o k v).lookup k' = o.lookup k' := by
  unfold objSet
  split_ifs with hm
  · exact lookup_objReplace_ne o k k' v h
  · obtain ⟨a, b, hab, hins⟩ := objInsertNew_split o k v
    rw [hins, lookup_mid_ne a b k k' v h, ← hab]

theorem mem_keys_objSet {β : Type} (o : List (String × β)) (k : String) (v : β) (x : String) :
    x ∈ (objSet o k v).map Prod.fst ↔ x ∈ o.map Prod.fst ∨ x = k := by
  unfold objSet
  split_ifs with hm
  · rw [keys_objReplace]
    constructor
    · exact Or.inl
    · rintro (h | h)
      · exact h
      · rw [h]; exact hm
  · obtain ⟨a, b, hab, hins⟩ := objInsertNew_split o k v
    rw [hins, hab]
    simp only [List.map_append, List.map_cons, List.mem_append, List.mem_cons]
    tauto

theorem nodup_keys_objSet {β : Type} (o : List (String × β)) (k : String) (v : β)
    (h : (o.map Prod.fst).Nodup) : ((objSet o k v).map Prod.fst).Nodup := by
  unfold objSet
  split_ifs with hm
  · rw [keys_objReplace]; exact h
  · obtain ⟨a, b, hab, hins⟩ := objInsertNew_split o k v
    rw [hins]
    rw [hab] at h hm
    simp only [List.map_append, List.map_cons, List.mem_append, not_or] at h hm ⊢
    rw [List.nodup_append] at h ⊢
    refine ⟨h.1, ?_, ?_⟩
    · rw [List.nodup_cons]; exact ⟨hm.2, h.2.1⟩
    · intro x hx hx'
      rw [List.mem_cons] at hx'
      rcases hx' with hx' | hx'
      · subst hx'; exact hm.1 hx
      · exact h.2.2 hx hx'

/-- A key that is not an array index is replaced in its place or appended. -/
theorem objSet_of_not_index {β : Type} (o : List (String × β)) (k : String) (v : β)
    (h : arrayIndex k = none) :
    objSet o k v = if k ∈ o.map Prod.fst then objReplace o k v else o ++ [(k, v)] := by
  unfold objSet objInsertNew
  rw [h]

theorem getTodayData_updateTodayData (data : Store) (selectedDate : String) (fv : FieldValue) :
    getTodayData (updateTodayData data selectedDate fv) selectedDate
      = setField (getTodayData data selectedDate) fv := by
  unfold updateTodayData
  generalize setField (getTodayData data selectedDate) fv = r
  unfold getTodayData
  rw [lookup_objSet_self]

/-! ## Toggle lemmas -/

theorem slotOf_spread (r : DayRecord) (time : Slot) :
    slotOf (spreadSupplements r.supplements) time = slotAt r time := by
  unfold slotAt spreadSupplements
  cases r.supplements <;> cases time <;> rfl

theorem slotOf_setSlot_self (s : Supplements) (time : Slot) (m : SlotMap) :
    slotOf (setSlot s time m) time = some m := by
  cases time <;> rfl

theorem slotOf_setSlot_ne (s : Supplements) (time time' : Slot) (m : SlotMap)
    (h : time' ≠ time) : slotOf (setSlot s time m) time' = slotOf s time' := by
  cases time <;> cases time' <;> first | rfl | exact absurd rfl h

theorem slotAt_setField (r : DayRecord) (s : Supplements) (time : Slot) :
    slotAt (setField r (.supplements s)) time = slotOf s time := rfl

theorem takenIn_spreadSlot (r : DayRecord) (time : Slot) (supp : String) :
    takenIn (spreadSlot (slotAt r time)) supp = takenOf r time supp := by
  unfold takenOf entryOf takenIn spreadSlot
  cases slotAt r time <;> simp

theorem lookup_spreadSlot (r : DayRecord) (time : Slot) (supp : String) :
    (spreadSlot (slotAt r time)).lookup supp = entryOf r time supp := by
  unfold entryOf spreadSlot
  cases slotAt r time <;> simp

/-- One call of `toggleSupplement`: the entry of the supplement becomes the negation of
its taken value, every other entry is kept. -/
theorem toggledSupplements_entries (r : DayRecord) (time : Slot) (supplement : String) :
    entryOf (setField r (.supplements (toggledSupplements r time supplement))) time supplement
      = some (!takenOf r time supplement) ∧
    ∀ (time' : Slot) (supp' : String), (time', supp') ≠ (time, supplement) →
      entryOf (setField r (.supplements (toggledSupplements r time supplement))) time' supp'
        = entryOf r time' supp' := by
  constructor
  · unfold entryOf
    rw [slotAt_setField]
    unfold toggledSupplements
    simp only [slotOf_setSlot_self, slotOf_spread, lookup_objSet_self, takenIn_spreadSlot]
  · intro time' supp' hne
    by_cases ht : time' = time
    · subst ht
      have hs : supp' ≠ supplement := fun hc => hne (by rw [hc])
      have h1 : entryOf (setField r (.supplements (toggledSupplements r time' supplement)))
          time' supp' = (spreadSlot (slotAt r time')).lookup supp' := by
        unfold entryOf
        rw [slotAt_setField]
        unfold toggledSupplements
        simp only [slotOf_setSlot_self, slotOf_spread]
        rw [lookup_objSet_ne _ _ _ _ hs]
      rw [h1, lookup_spreadSlot]
    · unfold entryOf
      rw [slotAt_setField]
      unfold toggledSupplements
      simp only [slotOf_setSlot_ne _ _ _ _ ht, slotOf_spread]

theorem allSlot_eq (time : Slot) (value : Bool) :
    allSlot time value = (supplementsList time).map fun supp => (supp, value) := by
  cases time <;> cases value <;> decide

theorem supplementsList_nodup (time : Slot) : (supplementsList time).Nodup := by
  cases time <;> decide

theorem lookup_map_const (names : List String) (value : Bool) (supp : String)
    (h : supp ∈ names) : (names.map fun n => (n, value)).lookup supp = some value := by
  induction names with
  | nil => simp at h
  | cons a as ih =>
    simp only [List.map_cons, List.lookup_cons]
    by_cases hs : supp = a
    · subst hs; simp
    · have hne : (supp == a) = false := by simpa using hs
      rw [hne]
      simp only [List.mem_cons] at h
      rcases h with h | h
      · exact absurd h hs
      · exact ih h

theorem allChecked_iff (r : DayRecord) (time : Slot) :
    allChecked (spreadSupplements r.supplements) time = true ↔
      ∀ supp ∈ supplementsList time, takenOf r time supp = true := by
  unfold allChecked
  rw [List.all_eq_true, slotOf_spread]
  unfold takenOf entryOf takenIn
  cases slotAt r time <;> simp

theorem toggleMoodList_nodup (moods : List String) (t : String) (h : moods.Nodup) :
    (toggleMoodList moods t).Nodup := by
  unfold toggleMoodList
  split_ifs with hm
  · exact h.erase t
  · rw [List.nodup_append]
    refine ⟨h, List.nodup_singleton t, ?_⟩
    intro x hx hx'
    rw [List.mem_singleton] at hx'
    subst hx'
    exact hm hx

/-- C14: two calls of `toggleSupplement` in succession, for a stored or an absent record,
give back the taken value of the supplement (a missing entry read as not taken) and keep
the entry of every other supplement of every slot. -/
theorem toggleSupplement_twice (data : Store) (selectedDate : String) (time : Slot)
    (supplement : String) :
    takenOf (getTodayData (toggleSupplement (toggleSupplement data selectedDate time supplement)
        selectedDate time supplement) selectedDate) time supplement
      = takenOf (getTodayData data selectedDate) time supplement ∧
    ∀ (time' : Slot) (supp' : String), (time', supp') ≠ (time, supplement) →
      entryOf (getTodayData (toggleSupplement (toggleSupplement data selectedDate time supplement)
          selectedDate time supplement) selectedDate) time' supp'
        = entryOf (getTodayData data selectedDate) time' supp' := by
  have h : ∀ d : Store, getTodayData (toggleSupplement d selectedDate time supplement) selectedDate
      = setField (getTodayData d selectedDate)
          (.supplements (toggledSupplements (getTodayData d selectedDate) time supplement)) := by
    intro d
    unfold toggleSupplement
    rw [getTodayData_updateTodayData]
  have h2 := h (toggleSupplement data selectedDate time supplement)
  have h1 := h data
  rw [h2, h1]
  generalize getTodayData data selectedDate = r0
  have a := toggledSupplements_entries r0 time supplement
  generalize setField r0 (.supplements (toggledSupplements r0 time supplement)) = r1 at a ⊢
  have b := toggledSupplements_entries r1 time supplement
  generalize setField r1 (.supplements (toggledSupplements r1 time supplement)) = r2 at b ⊢
  constructor
  · have t1 : takenOf r1 time supplement = !takenOf r0 time supplement := by
      unfold takenOf at *
      rw [a.1]
    unfold takenOf at t1 ⊢
    rw [b.1]
    unfold takenOf
    rw [t1]
    simp
  · intro time' supp' hne
    rw [b.2 time' supp' hne, a.2 time' supp' hne]

/-- C15: after `toggleAllSupplements` every supplement of the catalogue of the slot is
false if all of them were taken before, and true in every other case; the new slot
mapping has the names of the catalogue as its keys, and the mappings of the other two
slots are kept. -/
theorem toggleAllSupplements_spec (data : Store) (selectedDate : String) (time : Slot) :
    ((∀ supp ∈ supplementsList time, takenOf (getTodayData data selectedDate) time supp = true) →
      ∀ supp ∈ supplementsList time,
        entryOf (getTodayData (toggleAllSupplements data selectedDate time) selectedDate)
          time supp = some false) ∧
    (¬ (∀ supp ∈ supplementsList time, takenOf (getTodayData data selectedDate) time supp = true) →
      ∀ supp ∈ supplementsList time,
        entryOf (getTodayData (toggleAllSupplements data selectedDate time) selectedDate)
          time supp = some true) ∧
    (∃ m, slotAt (getTodayData (toggleAllSupplements data selectedDate time) selectedDate) time
        = some m ∧ m.map Prod.fst = supplementsList time) ∧
    (∀ time' : Slot, time' ≠ time →
      slotAt (getTodayData (toggleAllSupplements data selectedDate time) selectedDate) time'
        = slotAt (getTodayData data selectedDate) time') := by
  have h1 : getTodayData (toggleAllSupplements data selectedDate time) selectedDate
      = setField (getTodayData data selectedDate)
          (.supplements (allToggledSupplements (getTodayData data selectedDate) time)) := by
    unfold toggleAllSupplements
    rw [getTodayData_updateTodayData]
  rw [h1]
  generalize getTodayData data selectedDate = r
  have hslot : slotAt (setField r (.supplements (allToggledSupplements r time))) time
      = some ((supplementsList time).map fun supp =>
          (supp, !allChecked (spreadSupplements r.supplements) time)) := by
    rw [slotAt_setField]
    unfold allToggledSupplements
    simp only [slotOf_setSlot_self, allSlot_eq]
  have hentry : ∀ supp ∈ supplementsList time,
      entryOf (setField r (.supplements (allToggledSupplements r time))) time supp
        = some (!allChecked (spreadSupplements r.supplements) time) := by
    intro supp hs
    unfold entryOf
    rw [hslot]
    exact lookup_map_const _ _ _ hs
  refine ⟨?_, ?_, ?_, ?_⟩
  · intro hall supp hs
    rw [hentry supp hs, (allChecked_iff r time).2 hall]
    rfl
  · intro hnot supp hs
    have hf : allChecked (spreadSupplements r.supplements) time = false := by
      cases hc : allChecked (spreadSupplements r.supplements) time with
      | false => rfl
      | true => exact absurd ((allChecked_iff r time).1 hc) hnot
    rw [hentry supp hs, hf]
    rfl
  · refine ⟨_, hslot, ?_⟩
    rw [List.map_map]
    exact List.map_id _
  · intro time' hne
    rw [slotAt_setField]
    unfold allToggledSupplements
    simp only [slotOf_setSlot_ne _ _ _ _ hne, slotOf_spread]

/-- C16: on a mood list without duplicates `toggleMood` stores a list without
duplicates that contains the tag exactly when the old list did not, keeps the membership
and the relative order of the other tags and appends a new tag last; every sequence of
toggles from the empty list gives a list without duplicates. -/
theorem toggleMood_spec (data : Store) (selectedDate : String) (t : String)
    (h : (getTodayData data selectedDate).mood.Nodup) :
    (getTodayData (toggleMood data selectedDate t) selectedDate).mood
      = toggleMoodList (getTodayData data selectedDate).mood t ∧
    (getTodayData (toggleMood data selectedDate t) selectedDate).mood.Nodup ∧
    (t ∈ (getTodayData (toggleMood data selectedDate t) selectedDate).mood ↔
      t ∉ (getTodayData data selectedDate).mood) ∧
    (∀ u : String, u ≠ t →
      (u ∈ (getTodayData (toggleMood data selectedDate t) selectedDate).mood ↔
        u ∈ (getTodayData data selectedDate).mood)) ∧
    ((getTodayData (toggleMood data selectedDate t) selectedDate).mood.filter
        (fun u => decide (u ≠ t))
      = (getTodayData data selectedDate).mood.filter (fun u => decide (u ≠ t))) ∧
    (t ∉ (getTodayData data selectedDate).mood →
      (getTodayData (toggleMood data selectedDate t) selectedDate).mood
        = (getTodayData data selectedDate).mood ++ [t]) ∧
    ∀ ts : List String, (ts.foldl toggleMoodList []).Nodup := by
  have h1 : (getTodayData (toggleMood data selectedDate t) selectedDate).mood
      = toggleMoodList (getTodayData data selectedDate).mood t := by
    unfold toggleMood
    rw [getTodayData_updateTodayData]
    rfl
  rw [h1]
  generalize (getTodayData data selectedDate).mood = moods at h
  refine ⟨rfl, toggleMoodList_nodup moods t h, ?_, ?_, ?_, ?_, ?_⟩
  · unfold toggleMoodList
    split_ifs with hm
    · rw [h.mem_erase_iff]; simp [hm]
    · simp [hm]
  · intro u hu
    unfold toggleMoodList
    split_ifs with hm
    · rw [h.mem_erase_iff]; simp [hu]
    · simp [hu]
  · unfold toggleMoodList
    split_ifs with hm
    · rw [h.erase_eq_filter, List.filter_filter]
      congr 1
      funext u
      simp
    · simp
  · intro hm
    unfold toggleMoodList
    rw [if_neg hm]
  · intro ts
    have : ∀ (ts : List String) (acc : List String), acc.Nodup →
        (ts.foldl toggleMoodList acc).Nodup := by
      intro ts
      induction ts with
      | nil => intro acc hacc; exact hacc
      | cons x xs ih => intro acc hacc; exact ih _ (toggleMoodList_nodup acc x hacc)
    exact this ts [] List.nodup_nil

/-- Witness of C16: toggling a tag that is present removes it, toggling an absent tag
appends it. -/
theorem toggleMood_spec_witness :
    (getTodayData (toggleMood moodStore "2024-01-08" "💪") "2024-01-08").mood = ["😊"] ∧
    (getTodayData (toggleMood moodStore "2024-01-08" "😴") "2024-01-08").mood
      = ["😊", "💪", "😴"] := by
  have a := (toggleMood_spec moodStore "2024-01-08" "💪" (by decide)).1
  have b := (toggleMood_spec moodStore "2024-01-08" "😴" (by decide)).1
  rw [a, b]
  constructor <;> decide

/-- C17: `updateTodayData` stores at the date key the record read for it (the stored one
or the zero-value default) with the one field replaced; the other fields, the records of
the other keys and the keys are kept, the date key being added when it was missing. -/
theorem updateTodayData_frame (data : Store) (selectedDate : String) (fv : FieldValue) :
    (updateTodayData data selectedDate fv).lookup selectedDate
      = some (setField (getTodayData data selectedDate) fv) ∧
    getField (setField (getTodayData data selectedDate) fv) fv.field = some fv ∧
    (∀ f : Field, f ≠ fv.field →
      getField (setField (getTodayData data selectedDate) fv) f
        = getField (getTodayData data selectedDate) f) ∧
    (∀ k' : String, k' ≠ selectedDate →
      (updateTodayData data selectedDate fv).lookup k' = data.lookup k') ∧
    (∀ x : String, x ∈ (updateTodayData data selectedDate fv).map Prod.fst ↔
      x ∈ data.map Prod.fst ∨ x = selectedDate) ∧
    ((data.map Prod.fst).Nodup → ((updateTodayData data selectedDate fv).map Prod.fst).Nodup) := by
  refine ⟨lookup_objSet_self _ _ _, ?_, ?_, ?_, ?_, ?_⟩
  · cases fv <;> rfl
  · intro f hf
    cases fv <;> cases f <;> first | rfl | exact absurd rfl hf
  · intro k' hk
    exact lookup_objSet_ne _ _ _ _ hk
  · intro x
    exact mem_keys_objSet _ _ _ x
  · intro hnd
    exact nodup_keys_objSet _ _ _ hnd

/-! ## Sorting lemmas -/

theorem insertSorted_perm (e : String × DayRecord) (l : List (String × DayRecord)) :
    (insertSorted e l).Perm (e :: l) := by
  induction l with
  | nil => exact List.Perm.refl _
  | cons x xs ih =>
    rw [insertSorted]
    split_ifs
    · exact List.Perm.refl _
    · exact (List.Perm.cons x ih).trans (List.Perm.swap e x xs)

theorem sortByDate_perm (l : List (String × DayRecord)) : (sortByDate l).Perm l := by
  induction l with
  | nil => exact List.Perm.refl _
  | cons e es ih =>
    rw [sortByDate]
    exact (insertSorted_perm e (sortByDate es)).trans (List.Perm.cons e ih)

theorem dateOrdered_iff (a b : String × DayRecord) (ha : parseDateKey a.1 ≠ none)
    (hb : parseDateKey b.1 ≠ none) : dateOrdered a b = true ↔ dayOfEntry a ≤ dayOfEntry b := by
  unfold dateOrdered compareDates dayOfEntry
  cases hx : parseDateKey a.1 with
  | none => exact absurd hx ha
  | some x =>
    cases hy : parseDateKey b.1 with
    | none => exact absurd hy hb
    | some y =>
      simp only [decide_eq_true_eq]
      omega

theorem insertSorted_sorted (e : String × DayRecord) (l : List (String × DayRecord))
    (he : parseDateKey e.1 ≠ none) (hl : ∀ x ∈ l, parseDateKey x.1 ≠ none)
    (hs : l.Pairwise fun a b => dayOfEntry a ≤ dayOfEntry b) :
    (insertSorted e l).Pairwise fun a b => dayOfEntry a ≤ dayOfEntry b := by
  induction l with
  | nil => simp [insertSorted]
  | cons x xs ih =>
    have hx : parseDateKey x.1 ≠ none := hl x (by simp)
    rw [List.pairwise_cons] at hs
    rw [insertSorted]
    split_ifs with ho
    · have hex := (dateOrdered_iff e x he hx).1 ho
      rw [List.pairwise_cons]
      refine ⟨?_, List.pairwise_cons.2 hs⟩
      intro b hb
      rw [List.mem_cons] at hb
      rcases hb with hb | hb
      · rw [hb]; exact hex
      · exact le_trans hex (hs.1 b hb)
    · have hex : ¬ dayOfEntry e ≤ dayOfEntry x := fun hc => ho ((dateOrdered_iff e x he hx).2 hc)
      rw [List.pairwise_cons]
      refine ⟨?_, ih (fun y hy => hl y (by simp [hy])) hs.2⟩
      intro b hb
      have hb' := (insertSorted_perm e xs).mem_iff.1 hb
      rw [List.mem_cons] at hb'
      rcases hb' with hb' | hb'
      · rw [hb']; omega
      · exact hs.1 b hb'

theorem sortByDate_sorted (l : List (String × DayRecord))
    (hl : ∀ x ∈ l, parseDateKey x.1 ≠ none) :
    (sortByDate l).Pairwise fun a b => dayOfEntry a ≤ dayOfEntry b := by
  induction l with
  | nil => simp [sortByDate]
  | cons e es ih =>
    rw [sortByDate]
    apply insertSorted_sorted
    · exact hl e (by simp)
    · intro x hx
      exact hl x (by simp [(sortByDate_perm es).mem_iff.1 hx])
    · exact ih (fun x hx => hl x (by simp [hx]))

theorem progressSorted_perm (data : Store) (progressMetric : String) :
    (progressSorted data progressMetric).Perm
      (data.filter fun e => metricFilter progressMetric e.2) :=
  sortByDate_perm _

/-- On valid date keys the array `sorted` is in ascending order of the dates. -/
theorem progressSorted_sorted (data : Store) (progressMetric : String)
    (hvalid : ∀ e ∈ data, parseDateKey e.1 ≠ none) :
    (progressSorted data progressMetric).Pairwise fun a b =>
      ∃ x y, parseDateKey a.1 = some x ∧ parseDateKey b.1 = some y ∧ x ≤ y := by
  have hv : ∀ e ∈ progressSorted data progressMetric, parseDateKey e.1 ≠ none := by
    intro e he
    have := (progressSorted_perm data progressMetric).mem_iff.1 he
    exact hvalid e (List.mem_filter.1 this).1
  have hs := sortByDate_sorted (data.filter fun e => metricFilter progressMetric e.2)
    (fun e he => hvalid e (List.mem_filter.1 he).1)
  refine (List.Pairwise.and_mem.1 hs).imp ?_
  rintro a b ⟨ha, hb, hab⟩
  have hva := hv a ha
  have hvb := hv b hb
  unfold dayOfEntry at hab
  cases hx : parseDateKey a.1 with
  | none => exact absurd hx hva
  | some x =>
    cases hy : parseDateKey b.1 with
    | none => exact absurd hy hvb
    | some y =>
      rw [hx, hy] at hab
      exact ⟨x, y, rfl, rfl, hab⟩

/-! ## Counting lemmas -/

theorem mem_firstOccurrences (l : List String) (y : String) :
    y ∈ firstOccurrences l ↔ y ∈ l := by
  induction l with
  | nil => simp [firstOccurrences]
  | cons x xs ih =>
    simp only [firstOccurrences, List.mem_cons, List.mem_filter, ih, decide_eq_true_eq]
    by_cases h : y = x <;> simp [h]

theorem nodup_firstOccurrences (l : List String) : (firstOccurrences l).Nodup := by
  induction l with
  | nil => simp [firstOccurrences]
  | cons x xs ih =>
    simp only [firstOccurrences, List.nodup_cons, List.mem_filter, decide_eq_true_eq]
    exact ⟨fun h => h.2 rfl, ih.filter _⟩

theorem firstOccurrences_snoc (l : List String) (x : String) :
    firstOccurrences (l ++ [x])
      = if x ∈ l then firstOccurrences l else firstOccurrences l ++ [x] := by
  induction l with
  | nil => simp [firstOccurrences]
  | cons y ys ih =>
    have e : firstOccurrences (y :: ys ++ [x])
        = y :: (firstOccurrences (ys ++ [x])).filter fun z => decide (z ≠ y) := rfl
    rw [e, ih]
    by_cases hx : x ∈ ys
    · simp [hx, firstOccurrences]
    · by_cases hxy : x = y
      · subst hxy
        simp [hx, firstOccurrences, List.filter_append]
      · simp [hx, hxy, firstOccurrences, List.filter_append]

theorem lookup_map_self (names : List String) (f : String → Nat) (x : String) (h : x ∈ names) :
    (names.map fun l => (l, f l)).lookup x = some (f x) := by
  induction names with
  | nil => simp at h
  | cons a as ih =>
    simp only [List.map_cons, List.lookup_cons]
    by_cases hs : x = a
    · subst hs; simp
    · have hne : (x == a) = false := by simpa using hs
      rw [hne]
      simp only [List.mem_cons] at h
      rcases h with h | h
      · exact absurd h hs
      · exact ih h

/-- Without array indices among the labels, the counting loop gives the distinct labels
in the order of their first occurrence, each with its number of occurrences. -/
theorem countLabels_eq (labels : List String) (h : ∀ l ∈ labels, arrayIndex l = none) :
    countLabels labels = (firstOccurrences labels).map fun l => (l, labels.count l) := by
  induction labels using List.reverseRecOn with
  | nil => rfl
  | append_singleton ls x ih =>
    have ih' := ih (fun l hl => h l (by simp [hl]))
    have hx : arrayIndex x = none := h x (by simp)
    have hkeys : (countLabels ls).map Prod.fst = firstOccurrences ls := by
      rw [ih', List.map_map]
      exact List.map_id _
    have hstep : countLabels (ls ++ [x])
        = objSet (countLabels ls) x
            ((match (countLabels ls).lookup x with | some c => c | none => 0) + 1) := by
      unfold countLabels
      rw [List.foldl_append]
      rfl
    rw [hstep, objSet_of_not_index _ _ _ hx, firstOccurrences_snoc]
    by_cases hm : x ∈ ls
    · have hk : x ∈ (countLabels ls).map Prod.fst := by
        rw [hkeys]; exact (mem_firstOccurrences ls x).2 hm
      rw [if_pos hk, if_pos hm]
      have hl : (countLabels ls).lookup x = some (ls.count x) := by
        rw [ih']
        exact lookup_map_self _ _ _ ((mem_firstOccurrences ls x).2 hm)
      rw [hl, ih']
      unfold objReplace
      rw [List.map_map]
      apply List.map_congr_left
      intro l _
      by_cases hlx : l = x
      · subst hlx
        simp
      · have : ¬ x = l := fun hc => hlx hc.symm
        simp [hlx, this]
    · have hk : x ∉ (countLabels ls).map Prod.fst := by
        rw [hkeys]; exact fun hc => hm ((mem_firstOccurrences ls x).1 hc)
      rw [if_neg hk, if_neg hm]
      have hl : (countLabels ls).lookup x = none := lookup_none_of_not_mem _ _ hk
      rw [hl, ih', List.map_append]
      congr 1
      · apply List.map_congr_left
        intro l hl'
        have hlm : l ∈ ls := (mem_firstOccurrences ls l).1 hl'
        have : ¬ x = l := fun hc => hm (hc ▸ hlm)
        simp [List.count_singleton', this]
      · simp [List.count_eq_zero_of_not_mem hm]

theorem sum_count_firstOccurrences (labels : List String) :
    ((firstOccurrences labels).map fun l => labels.count l).sum = labels.length := by
  have hp : (firstOccurrences labels).Perm labels.dedup := by
    rw [List.perm_ext_iff_of_nodup (nodup_firstOccurrences labels) (List.nodup_dedup labels)]
    intro a
    rw [mem_firstOccurrences, List.mem_dedup]
  rw [(hp.map _).sum_eq]
  exact List.sum_map_count_dedup_eq_length labels

/-! ## Series lemmas -/

theorem getProgressData_weight (data : Store) (label : String → String) :
    getProgressData data "weight" label
      = (progressSorted data "weight").map fun e =>
          { date := label e.1, value := parseFloat e.2.weight } := by
  unfold getProgressData
  rw [if_pos rfl]

theorem getProgressData_steps (data : Store) (label : String → String) :
    getProgressData data "steps" label
      = (progressSorted data "steps").map fun e =>
          { date := label e.1, value := parseInt e.2.steps } := by
  unfold getProgressData
  rw [if_neg (by decide), if_pos rfl]

theorem getProgressData_training (data : Store) (label : String → String) :
    getProgressData data "training" label
      = (countLabels ((progressSorted data "training").map fun e => label e.1)).map fun e =>
          { date := e.1, value := .finite (e.2 : ℚ) } := by
  unfold getProgressData
  rw [if_neg (by decide), if_neg (by decide), if_pos rfl]

theorem getProgressData_fasting (data : Store) (label : String → String) :
    getProgressData data "fasting" label
      = (countLabels ((progressSorted data "fasting").map fun e => keyOf e.2.fasting)).map fun e =>
          { date := e.1, value := .finite (e.2 : ℚ) } := by
  unfold getProgressData
  rw [if_neg (by decide), if_neg (by decide), if_neg (by decide), if_pos rfl]

theorem metricFilter_weight (r : DayRecord) : metricFilter "weight" r = decide (r.weight ≠ "") := by
  unfold metricFilter
  rw [if_pos rfl]

theorem metricFilter_steps (r : DayRecord) : metricFilter "steps" r = decide (r.steps ≠ "") := by
  unfold metricFilter
  rw [if_neg (by decide), if_pos rfl]

theorem metricFilter_training (r : DayRecord) : metricFilter "training" r = truthy r.training := by
  unfold metricFilter
  rw [if_neg (by decide), if_neg (by decide), if_pos rfl]

theorem metricFilter_fasting (r : DayRecord) : metricFilter "fasting" r = truthy r.fasting := by
  unfold metricFilter
  rw [if_neg (by decide), if_neg (by decide), if_neg (by decide), if_pos rfl]

theorem mem_progressSorted (data : Store) (progressMetric : String) (e : String × DayRecord) :
    e ∈ progressSorted data progressMetric ↔ e ∈ data ∧ metricFilter progressMetric e.2 = true := by
  rw [(progressSorted_perm data progressMetric).mem_iff, List.mem_filter]

/-- The number of occurrences of a label among the labels of the sorted entries. -/
theorem count_labels_sorted (data : Store) (progressMetric : String)
    (f : String × DayRecord → String) (l : String) :
    ((progressSorted data progressMetric).map f).count l
      = data.countP fun e => metricFilter progressMetric e.2 && decide (f e = l) := by
  rw [List.count_eq_countP, List.countP_map,
    (progressSorted_perm data progressMetric).countP_eq, List.countP_filter]
  apply List.countP_congr
  intro e _
  simp [Bool.and_comm]

/-! ## The claims on the series and the export -/

/-- C12, as stated, fails: the record with the weight text `abc` gives a point, and its
value is `NaN`. -/
theorem getProgressData_nan_counterexample :
    getProgressData abcStore "weight" frenchLabel = [{ date := "08 janv.", value := .nan }] ∧
    parseFloat "abc" = .nan := by
  constructor <;> decide

/-- C12, amended: the points of the series for `weight` (for `steps`) are those of the
records whose weight (steps) text is not empty, each with the result of `parseFloat`
(`parseInt`) on the text, which is `NaN` for a text that does not start with a numeral. -/
theorem getProgressData_points (data : Store) (label : String → String) :
    (∀ p : Point, p ∈ getProgressData data "weight" label ↔
      ∃ e ∈ data, e.2.weight ≠ "" ∧ p = { date := label e.1, value := parseFloat e.2.weight }) ∧
    (∀ p : Point, p ∈ getProgressData data "steps" label ↔
      ∃ e ∈ data, e.2.steps ≠ "" ∧ p = { date := label e.1, value := parseInt e.2.steps }) := by
  constructor
  · intro p
    rw [getProgressData_weight, List.mem_map]
    constructor
    · rintro ⟨e, he, rfl⟩
      rw [mem_progressSorted, metricFilter_weight] at he
      exact ⟨e, he.1, by simpa using he.2, rfl⟩
    · rintro ⟨e, he, hw, rfl⟩
      refine ⟨e, ?_, rfl⟩
      rw [mem_progressSorted, metricFilter_weight]
      exact ⟨he, by simpa using hw⟩
  · intro p
    rw [getProgressData_steps, List.mem_map]
    constructor
    · rintro ⟨e, he, rfl⟩
      rw [mem_progressSorted, metricFilter_steps] at he
      exact ⟨e, he.1, by simpa using he.2, rfl⟩
    · rintro ⟨e, he, hw, rfl⟩
      refine ⟨e, ?_, rfl⟩
      rw [mem_progressSorted, metricFilter_steps]
      exact ⟨he, by simpa using hw⟩

/-- C13: on a store with valid date keys the series for `weight` is the image of the
array `sorted`, which holds exactly the records with a weight text that is not empty (it
is a permutation of them) in ascending order of their dates; the value of a point is the
number that `parseFloat` reads. The same holds for `steps` with `parseInt`. -/
theorem getProgressData_sorted (data : Store) (label : String → String)
    (hvalid : ∀ e ∈ data, parseDateKey e.1 ≠ none) :
    (getProgressData data "weight" label
        = (progressSorted data "weight").map fun e =>
            { date := label e.1, value := parseFloat e.2.weight }) ∧
    (progressSorted data "weight").Perm (data.filter fun e => decide (e.2.weight ≠ "")) ∧
    ((progressSorted data "weight").Pairwise fun a b =>
      ∃ x y, parseDateKey a.1 = some x ∧ parseDateKey b.1 = some y ∧ x ≤ y) ∧
    (getProgressData data "steps" label
        = (progressSorted data "steps").map fun e =>
            { date := label e.1, value := parseInt e.2.steps }) ∧
    (progressSorted data "steps").Perm (data.filter fun e => decide (e.2.steps ≠ "")) ∧
    ((progressSorted data "steps").Pairwise fun a b =>
      ∃ x y, parseDateKey a.1 = some x ∧ parseDateKey b.1 = some y ∧ x ≤ y) := by
  refine ⟨getProgressData_weight data label, ?_, progressSorted_sorted data "weight" hvalid,
    getProgressData_steps data label, ?_, progressSorted_sorted data "steps" hvalid⟩
  · have h := progressSorted_perm data "weight"
    simp only [metricFilter_weight] at h
    exact h
  · have h := progressSorted_perm data "steps"
    simp only [metricFilter_steps] at h
    exact h

/-- Witness of C13: of three records stored in the order 8, 5, 1 January, the one
without weight gives no point and the other two come in date order, `92.5` as the number
92.5. -/
theorem getProgressData_sorted_witness :
    getProgressData weightStore "weight" frenchLabel
      = [{ date := "01 janv.", value := .finite 95 },
         { date := "08 janv.", value := .finite 92.5 }] := by
  have h := (getProgressData_sorted weightStore frenchLabel (by decide)).1
  have hs : progressSorted weightStore "weight"
      = [("2024-01-01", { defaultRecord with weight := "95" }),
         ("2024-01-08", { defaultRecord with weight := "92.5" })] := by decide
  have l1 : frenchLabel "2024-01-01" = "01 janv." := by decide
  have l2 : frenchLabel "2024-01-08" = "08 janv." := by decide
  have p1 : parseFloat "95" = numberOf false (.decimal 95 0) := by rfl
  have p2 : parseFloat "92.5" = numberOf false (.decimal 925 (-1)) := by rfl
  rw [h, hs]
  simp only [List.map, l1, l2, p1, p2, numberOf, decimalValue]
  norm_num

/-- C18: when no fasting label is an array index (a canonical integer string), the series
for `fasting` has one point for each distinct label of the records with a fasting type
set, in the order in which the labels are first met along the array `sorted`; the value
of a point is the number of records with that label, and the values add up to the number
of records with a fasting type set. On valid date keys `sorted` is in ascending date
order. -/
theorem getProgressData_fasting_spec (data : Store) (label : String → String)
    (hidx : ∀ e ∈ data, arrayIndex (keyOf e.2.fasting) = none) :
    (getProgressData data "fasting" label
      = (firstOccurrences ((progressSorted data "fasting").map fun e => keyOf e.2.fasting)).map
          fun l => Point.mk l (JSNumber.finite
            ((((progressSorted data "fasting").map fun e => keyOf e.2.fasting).count l : Nat) : ℚ))) ∧
    (firstOccurrences ((progressSorted data "fasting").map fun e => keyOf e.2.fasting)).Nodup ∧
    (∀ l : String,
      l ∈ firstOccurrences ((progressSorted data "fasting").map fun e => keyOf e.2.fasting) ↔
        ∃ e ∈ data, truthy e.2.fasting = true ∧ e.2.fasting = some l) ∧
    (∀ l : String, ((progressSorted data "fasting").map fun e => keyOf e.2.fasting).count l
      = data.countP fun e => truthy e.2.fasting && decide (e.2.fasting = some l)) ∧
    ((firstOccurrences ((progressSorted data "fasting").map fun e => keyOf e.2.fasting)).map
        fun l => ((progressSorted data "fasting").map fun e => keyOf e.2.fasting).count l).sum
      = data.countP (fun e => truthy e.2.fasting) ∧
    ((∀ e ∈ data, parseDateKey e.1 ≠ none) →
      (progressSorted data "fasting").Pairwise fun a b =>
        ∃ x y, parseDateKey a.1 = some x ∧ parseDateKey b.1 = some y ∧ x ≤ y) := by
  have hL : ∀ l ∈ (progressSorted data "fasting").map fun e => keyOf e.2.fasting,
      arrayIndex l = none := by
    intro l hl
    rw [List.mem_map] at hl
    obtain ⟨e, he, rfl⟩ := hl
    exact hidx e ((mem_progressSorted data "fasting" e).1 he).1
  have hkey : ∀ (r : DayRecord) (l : String),
      (truthy r.fasting && decide (keyOf r.fasting = l))
        = (truthy r.fasting && decide (r.fasting = some l)) := by
    intro r l
    cases hf : r.fasting with
    | none => simp [truthy]
    | some x => simp [truthy, keyOf]
  refine ⟨?_, nodup_firstOccurrences _, ?_, ?_, ?_, progressSorted_sorted data "fasting"⟩
  · rw [getProgressData_fasting, countLabels_eq _ hL, List.map_map]
    rfl
  · intro l
    rw [mem_firstOccurrences, List.mem_map]
    constructor
    · rintro ⟨e, he, hk⟩
      rw [mem_progressSorted, metricFilter_fasting] at he
      refine ⟨e, he.1, he.2, ?_⟩
      have := hkey e.2 l
      simp only [he.2, Bool.true_and, hk, decide_True] at this
      simpa using this.symm
    · rintro ⟨e, he, ht, hf⟩
      refine ⟨e, ?_, ?_⟩
      · rw [mem_progressSorted, metricFilter_fasting]; exact ⟨he, ht⟩
      · rw [hf]; rfl
  · intro l
    rw [count_labels_sorted]
    apply List.countP_congr
    intro e _
    rw [metricFilter_fasting, hkey]
  · rw [sum_count_firstOccurrences, List.length_map,
      (progressSorted_perm data "fasting").length_eq, ← List.countP_eq_length_filter]
    apply List.countP_congr
    intro e _
    rw [metricFilter_fasting]

/-- Witness of C18: three fasting days, stored out of date order, give `OMAD` once and
then `16/8` twice. -/
theorem getProgressData_fasting_spec_witness :
    getProgressData fastingStore "fasting" frenchLabel
      = [{ date := "OMAD", value := .finite 1 }, { date := "16/8", value := .finite 2 }] := by
  have h := (getProgressData_fasting_spec fastingStore frenchLabel (by decide)).1
  have hs : (progressSorted fastingStore "fasting").map (fun e => keyOf e.2.fasting)
      = ["OMAD", "16/8", "16/8"] := by decide
  rw [h, hs]
  have hf : firstOccurrences ["OMAD", "16/8", "16/8"] = ["OMAD", "16/8"] := by decide
  have c1 : List.count "OMAD" ["OMAD", "16/8", "16/8"] = 1 := by decide
  have c2 : List.count "16/8" ["OMAD", "16/8", "16/8"] = 2 := by decide
  rw [hf]
  simp only [List.map, c1, c2]
  norm_num

/-- C19: for a label function whose labels are not array indices (a day with a month
name is none), the series for `training` has one point for each distinct label of the
dates with a training session set, in the order in which the labels are first met along
the array `sorted`; the value of a point is the number of such records whose date has
that label, and the values add up to the number of records with training set. -/
theorem getProgressData_training_spec (data : Store) (label : String → String)
    (hidx : ∀ e ∈ data, arrayIndex (label e.1) = none) :
    (getProgressData data "training" label
      = (firstOccurrences ((progressSorted data "training").map fun e => label e.1)).map
          fun l => Point.mk l (JSNumber.finite
            ((((progressSorted data "training").map fun e => label e.1).count l : Nat) : ℚ))) ∧
    (firstOccurrences ((progressSorted data "training").map fun e => label e.1)).Nodup ∧
    (∀ l : String,
      l ∈ firstOccurrences ((progressSorted data "training").map fun e => label e.1) ↔
        ∃ e ∈ data, truthy e.2.training = true ∧ label e.1 = l) ∧
    (∀ l : String, ((progressSorted data "training").map fun e => label e.1).count l
      = data.countP fun e => truthy e.2.training && decide (label e.1 = l)) ∧
    ((firstOccurrences ((progressSorted data "training").map fun e => label e.1)).map
        fun l => ((progressSorted data "training").map fun e => label e.1).count l).sum
      = data.countP (fun e => truthy e.2.training) ∧
    ((∀ e ∈ data, parseDateKey e.1 ≠ none) →
      (progressSorted data "training").Pairwise fun a b =>
        ∃ x y, parseDateKey a.1 = some x ∧ parseDateKey b.1 = some y ∧ x ≤ y) := by
  have hL : ∀ l ∈ (progressSorted data "training").map fun e => label e.1,
      arrayIndex l = none := by
    intro l hl
    rw [List.mem_map] at hl
    obtain ⟨e, he, rfl⟩ := hl
    exact hidx e ((mem_progressSorted data "training" e).1 he).1
  refine ⟨?_, nodup_firstOccurrences _, ?_, ?_, ?_, progressSorted_sorted data "training"⟩
  · rw [getProgressData_training, countLabels_eq _ hL, List.map_map]
    rfl
  · intro l
    rw [mem_firstOccurrences, List.mem_map]
    constructor
    · rintro ⟨e, he, hk⟩
      rw [mem_progressSorted, metricFilter_training] at he
      exact ⟨e, he.1, he.2, hk⟩
    · rintro ⟨e, he, ht, hf⟩
      refine ⟨e, ?_, hf⟩
      rw [mem_progressSorted, metricFilter_training]; exact ⟨he, ht⟩
  · intro l
    rw [count_labels_sorted]
    apply List.countP_congr
    intro e _
    rw [metricFilter_training]
  · rw [sum_count_firstOccurrences, List.length_map,
      (progressSorted_perm data "training").length_eq, ← List.countP_eq_length_filter]
    apply List.countP_congr
    intro e _
    rw [metricFilter_training]

/-- Witness of C19: training on 8 January 2023, 8 January 2024 and 9 January 2024 gives
the label of 8 January with value 2 and the label of 9 January with value 1. -/
theorem getProgressData_training_spec_witness :
    getProgressData trainingStore "training" frenchLabel
      = [{ date := "08 janv.", value := .finite 2 }, { date := "09 janv.", value := .finite 1 }] := by
  have h := (getProgressData_training_spec trainingStore frenchLabel (by decide)).1
  have hs : (progressSorted trainingStore "training").map (fun e => frenchLabel e.1)
      = ["08 janv.", "08 janv.", "09 janv."] := by decide
  rw [h, hs]
  have hf : firstOccurrences ["08 janv.", "08 janv.", "09 janv."] = ["08 janv.", "09 janv."] := by
    decide
  have c1 : List.count "08 janv." ["08 janv.", "08 janv.", "09 janv."] = 2 := by decide
  have c2 : List.count "09 janv." ["08 janv.", "08 janv.", "09 janv."] = 1 := by decide
  rw [hf]
  simp only [List.map, c1, c2]
  norm_num

theorem csvLines_foldl (data : Store) (acc : List String) :
    data.foldl (fun csv e => csv ++ [csvRow e.1 e.2]) acc
      = acc ++ data.map fun e => csvRow e.1 e.2 := by
  induction data generalizing acc with
  | nil => simp
  | cons e es ih => simp [ih]

/-- One row, written out: the comma-join of the 11 fields of lines 244-256. -/
theorem csvRow_eq (date : String) (value : DayRecord) :
    csvRow date value = ",".intercalate
      [date,
       value.weight,
       (match value.training with
        | some label => label
        | none => ""),
       value.steps,
       (if value.hydration = true then "Oui" else "Non"),
       (match value.fasting with
        | some label => label
        | none => ""),
       ";".intercalate value.mood,
       ";".intercalate ((((slotAt value .morning).getD []).filter fun x => x.2).map fun x => x.1),
       ";".intercalate ((((slotAt value .evening).getD []).filter fun x => x.2).map fun x => x.1),
       ";".intercalate ((((slotAt value .meal).getD []).filter fun x => x.2).map fun x => x.1),
       String.mk (value.comments.data.map fun c => if c = ',' then ';' else c)] := by
  obtain ⟨supplements, training, steps, hydration, weight, fasting, comments, mood⟩ := value
  cases training <;> cases fasting <;> cases supplements with
  | none => rfl
  | some s =>
    obtain ⟨morning, evening, meal⟩ := s
    cases morning <;> cases evening <;> cases meal <;> rfl

/-- The export of the store of the one-record example. -/
theorem exportData_csvRecord :
    exportData [("2024-01-08", csvRecord)]
      = "Date,Poids,Training,Pas,Hydratation,Jeûne,Mood,Compléments Matin,Compléments Soir,Compléments Repas,Commentaires"
        ++ "\n" ++ "2024-01-08,92.5,,,Oui,,,,,," := by
  rfl

/-- The export of `filledStore`: the rows follow the order of the store, not the dates. -/
theorem exportData_filledStore :
    exportData filledStore
      = "Date,Poids,Training,Pas,Hydratation,Jeûne,Mood,Compléments Matin,Compléments Soir,Compléments Repas,Commentaires"
        ++ "\n"
        ++ "2024-01-09,91.8,Séance C (Mixte),8000,Non,16/8,Motivé;Fatigué,NAC 1200mg;Magnésium 200mg,Électrolytes 500ml,Créatine 5g;Zinc 30mg,bien; mais fatigué; le soir"
        ++ "\n" ++ "2024-01-08,92.5,,,Oui,,,,,," := by
  rfl

/-- C20: the text of `exportData` is the header line
`Date,Poids,Training,Pas,Hydratation,Jeûne,Mood,Compléments Matin,Compléments Soir,Compléments Repas,Commentaires`
and one row for every entry of the store, in the order of the store, joined by newlines.
A row is the comma-join of 11 fields: the date key, the weight, the training (empty when
null), the steps, `Oui` for hydration true and `Non` otherwise, the fasting (empty when
null), the mood tags joined by `;`, the names of the true entries of the morning, the
evening and the meal slot joined by `;` (a missing slot gives the empty text), and the
comments with every comma replaced by `;` and every other character kept. The record
`{ weight: "92.5", hydration: true }` of 2024-01-08 gives the row
`2024-01-08,92.5,,,Oui,,,,,,`; a store that holds a record with every field set for
2024-01-09 before that record gives the two rows in that order. -/
theorem exportData_spec (data : Store) :
    exportData data = "\n".intercalate
      ("Date,Poids,Training,Pas,Hydratation,Jeûne,Mood,Compléments Matin,Compléments Soir,Compléments Repas,Commentaires"
        :: data.map fun e => ",".intercalate
          [e.1,
           e.2.weight,
           (match e.2.training with
            | some label => label
            | none => ""),
           e.2.steps,
           (if e.2.hydration = true then "Oui" else "Non"),
           (match e.2.fasting with
            | some label => label
            | none => ""),
           ";".intercalate e.2.mood,
           ";".intercalate ((((slotAt e.2 .morning).getD []).filter fun x => x.2).map fun x => x.1),
           ";".intercalate ((((slotAt e.2 .evening).getD []).filter fun x => x.2).map fun x => x.1),
           ";".intercalate ((((slotAt e.2 .meal).getD []).filter fun x => x.2).map fun x => x.1),
           String.mk (e.2.comments.data.map fun c => if c = ',' then ';' else c)]) ∧
    exportData data = "\n".intercalate (csvHeader :: data.map fun e => csvRow e.1 e.2) ∧
    csvLines data = csvHeader :: data.map (fun e => csvRow e.1 e.2) ∧
    (csvLines data).length = data.length + 1 ∧
    (∀ (date : String) (value : DayRecord),
      (csvFields date value).length = 11 ∧
      csvRow date value = ",".intercalate (csvFields date value) ∧
      (csvFields date value).head? = some date ∧
      (csvFields date value).getLast? = some (replaceCommas value.comments)) ∧
    (∀ text : String, ',' ∉ (replaceCommas text).data ∧
      (replaceCommas text).data.length = text.data.length ∧
      (replaceCommas text).data = text.data.map (fun c => if c = ',' then ';' else c)) ∧
    exportData [("2024-01-08", csvRecord)]
      = "Date,Poids,Training,Pas,Hydratation,Jeûne,Mood,Compléments Matin,Compléments Soir,Compléments Repas,Commentaires"
        ++ "\n" ++ "2024-01-08,92.5,,,Oui,,,,,," ∧
    exportData filledStore
      = "Date,Poids,Training,Pas,Hydratation,Jeûne,Mood,Compléments Matin,Compléments Soir,Compléments Repas,Commentaires"
        ++ "\n"
        ++ "2024-01-09,91.8,Séance C (Mixte),8000,Non,16/8,Motivé;Fatigué,NAC 1200mg;Magnésium 200mg,Électrolytes 500ml,Créatine 5g;Zinc 30mg,bien; mais fatigué; le soir"
        ++ "\n" ++ "2024-01-08,92.5,,,Oui,,,,,," := by
  have hl : csvLines data = csvHeader :: data.map (fun e => csvRow e.1 e.2) := by
    unfold csvLines
    rw [csvLines_foldl]
    rfl
  refine ⟨?_, by unfold exportData; rw [hl], hl, by rw [hl]; simp, ?_, ?_,
    exportData_csvRecord, exportData_filledStore⟩
  · unfold exportData
    rw [hl]
    exact congrArg (fun rows => "\n".intercalate (csvHeader :: rows))
      (List.map_congr_left fun e _ => csvRow_eq e.1 e.2)
  · intro date value
    exact ⟨rfl, rfl, rfl, rfl⟩
  · intro text
    unfold replaceCommas
    refine ⟨?_, by simp, rfl⟩
    simp only [List.mem_map, not_exists, not_and]
    intro c _
    by_cases hc : c = ',' <;> simp [hc]

/-- Witness of C15: on the zero-value record, where no morning supplement is taken,
`toggleAllSupplements` sets the morning supplements to true; a second call, with all of
them taken, sets them to false. -/
theorem toggleAllSupplements_spec_witness :
    entryOf (getTodayData (toggleAllSupplements defaultStore "2024-01-08" .morning)
      "2024-01-08") .morning "NAC 1200mg" = some true ∧
    entryOf (getTodayData (toggleAllSupplements
        (toggleAllSupplements defaultStore "2024-01-08" .morning) "2024-01-08" .morning)
      "2024-01-08") .morning "NAC 1200mg" = some false :=
  ⟨(toggleAllSupplements_spec defaultStore "2024-01-08" .morning).2.1 (by decide)
     "NAC 1200mg" (by decide),
   (toggleAllSupplements_spec (toggleAllSupplements defaultStore "2024-01-08" .morning)
     "2024-01-08" .morning).1 (by decide) "NAC 1200mg" (by decide)⟩

/-! ## The streak as a run -/

theorem streakLoop_eq_run (data : Store) (today : Int) :
    ∀ n i s : Nat, 0 < i → streakLoop data today n i s = s + completeRun data today n i := by
  intro n
  induction n with
  | zero => intro i s _; simp [streakLoop, completeRun]
  | succ n ih =>
    intro i s hi
    rw [streakLoop, completeRun, streakDateStr_eq]
    by_cases hc : getDayStatus data (toISODate (today - (i : Int))) = "complete"
    · rw [if_pos hc, if_pos hc, ih (i + 1) (s + 1) (by omega)]
      omega
    · rw [if_neg hc, if_neg hc, if_pos hi]
      rfl

/-- The run of `completeRun` is the longest one: its days are complete, and it stops
before a day that is not complete or at the cut. -/
theorem completeRun_spec (data : Store) (today : Int) :
    ∀ n i : Nat, completeRun data today n i ≤ n ∧
      (∀ j : Nat, j < completeRun data today n i →
        getDayStatus data (toISODate (today - ((i + j : Nat) : Int))) = "complete") ∧
      (completeRun data today n i < n →
        getDayStatus data (toISODate (today - ((i + completeRun data today n i : Nat) : Int)))
          ≠ "complete") := by
  intro n
  induction n with
  | zero => intro i; simp [completeRun]
  | succ n ih =>
    intro i
    rw [completeRun]
    by_cases hc : getDayStatus data (toISODate (today - (i : Int))) = "complete"
    · rw [if_pos hc]
      obtain ⟨h1, h2, h3⟩ := ih (i + 1)
      refine ⟨by omega, ?_, ?_⟩
      · intro j hj
        cases j with
        | zero => simpa using hc
        | succ j =>
          have := h2 j (by omega)
          have e : i + 1 + j = i + (j + 1) := by omega
          rw [e] at this
          exact this
      · intro hlt
        have := h3 (by omega)
        have e : i + 1 + completeRun data today n (i + 1)
            = i + (completeRun data today n (i + 1) + 1) := by omega
        rw [e] at this
        exact this
    · rw [if_neg hc]
      refine ⟨by omega, fun j hj => absurd hj (by omega), ?_⟩
      intro _
      simpa using hc

/-! ## Monotonicity of the classifier -/

theorem completedChecks_mono (checks checks' : List Bool)
    (h : List.Forall₂ (fun a b : Bool => a = true → b = true) checks checks') :
    completedChecks checks ≤ completedChecks checks' ∧ checks.length = checks'.length := by
  induction h with
  | nil => exact ⟨le_refl _, rfl⟩
  | @cons a b l l' hab _ ih =>
    unfold completedChecks at ih ⊢
    refine ⟨?_, by simp [ih.2]⟩
    cases a <;> cases b
    · simpa using ih.1
    · simp only [List.filter_cons, id_eq, Bool.false_eq_true, if_false, if_true,
        List.length_cons]
      omega
    · exact absurd (hab rfl) (by decide)
    · simpa using ih.1

theorem exceedsSixTenths_mono (d d' t : Nat) (h : d ≤ d')
    (hd : exceedsSixTenths d t = true) : exceedsSixTenths d' t = true := by
  unfold exceedsSixTenths at *
  simp only [decide_eq_true_eq] at *
  have : d * 2 ^ 53 ≤ d' * 2 ^ 53 := Nat.mul_le_mul_right _ h
  omega

/-- A checklist that is true wherever another one of the same length is true has at
least its status. -/
theorem classify_mono (checks checks' : List Bool)
    (h : List.Forall₂ (fun a b : Bool => a = true → b = true) checks checks') :
    statusRank (classify checks) ≤ statusRank (classify checks') := by
  obtain ⟨hle, hlen⟩ := completedChecks_mono checks checks' h
  have hle' := completedChecks_le checks'
  unfold classify
  simp only
  by_cases h1 : completedChecks checks = checks.length
  · have h1' : completedChecks checks' = checks'.length := by omega
    rw [if_pos h1, if_pos h1']
  · rw [if_neg h1]
    by_cases h2 : exceedsSixTenths (completedChecks checks) checks.length = true
    · rw [if_pos h2]
      by_cases h1' : completedChecks checks' = checks'.length
      · rw [if_pos h1']; decide
      · rw [if_neg h1', if_pos (by rw [← hlen]; exact exceedsSixTenths_mono _ _ _ hle h2)]
    · rw [if_neg h2]
      split_ifs <;> decide

theorem forall₂_imp_self (l : List Bool) :
    List.Forall₂ (fun a b : Bool => a = true → b = true) l l :=
  List.forall₂_same.2 fun _ _ h => h

theorem totalChecks_eq_slotAt (r : DayRecord) :
    totalChecks r = slotValues (slotAt r .morning) ++ slotValues (slotAt r .evening)
      ++ slotValues (slotAt r .meal) ++ [truthy r.training, r.hydration, truthy r.fasting] := by
  unfold totalChecks slotAt slotOf
  cases r.supplements <;> rfl

theorem slotAt_toggled_self (r : DayRecord) (time : Slot) (supplement : String) :
    slotAt (setField r (.supplements (toggledSupplements r time supplement))) time
      = some (objSet (spreadSlot (slotAt r time)) supplement (!takenOf r time supplement)) := by
  rw [slotAt_setField]
  unfold toggledSupplements
  simp only [slotOf_setSlot_self, slotOf_spread, takenIn_spreadSlot]

theorem slotAt_toggled_ne (r : DayRecord) (time time' : Slot) (supplement : String)
    (h : time' ≠ time) :
    slotAt (setField r (.supplements (toggledSupplements r time supplement))) time'
      = slotAt r time' := by
  rw [slotAt_setField]
  unfold toggledSupplements
  simp only [slotOf_setSlot_ne _ _ _ _ h, slotOf_spread]

theorem length_objSet {β : Type} (o : List (String × β)) (k : String) (v : β) :
    (objSet o k v).length = if k ∈ o.map Prod.fst then o.length else o.length + 1 := by
  unfold objSet
  split_ifs with hm
  · unfold objReplace; simp
  · obtain ⟨a, b, hab, hins⟩ := objInsertNew_split o k v
    rw [hins, hab]
    simp only [List.length_append, List.length_cons]
    omega

theorem mem_keys_of_lookup {β : Type} (o : List (String × β)) (k : String) (v : β)
    (h : o.lookup k = some v) : k ∈ o.map Prod.fst := by
  by_contra hc
  rw [lookup_none_of_not_mem o k hc] at h
  exact absurd h (by simp)

theorem not_mem_keys_of_lookup {β : Type} (o : List (String × β)) (k : String)
    (h : o.lookup k = none) : k ∉ o.map Prod.fst := by
  intro hc
  rw [List.lookup_eq_none_iff] at h
  rw [List.mem_map] at hc
  obtain ⟨p, hp, rfl⟩ := hc
  have := h p hp
  simp at this

theorem totalChecks_length_slotAt (r : DayRecord) :
    (totalChecks r).length = slotCount (slotAt r .morning) + slotCount (slotAt r .evening)
      + slotCount (slotAt r .meal) + 3 := by
  rw [totalChecks_eq_slotAt]
  simp only [List.length_append, slotValues_length, List.length_cons, List.length_nil]

theorem slotCount_spreadSlot (m : Option SlotMap) : (spreadSlot m).length = slotCount m := by
  cases m <;> rfl

/-- With an entry missing, one call of `toggleSupplement` adds the entry, set to true,
and the checklist gets one item longer. -/
theorem toggled_missing (r : DayRecord) (time : Slot) (supplement : String)
    (h : entryOf r time supplement = none) :
    entryOf (setField r (.supplements (toggledSupplements r time supplement))) time supplement
      = some true ∧
    (totalChecks (setField r (.supplements (toggledSupplements r time supplement)))).length
      = (totalChecks r).length + 1 := by
  have ht : takenOf r time supplement = false := by unfold takenOf; rw [h]
  have he := (toggledSupplements_entries r time supplement).1
  rw [ht] at he
  refine ⟨he, ?_⟩
  have hnot : supplement ∉ (spreadSlot (slotAt r time)).map Prod.fst := by
    apply not_mem_keys_of_lookup
    rw [lookup_spreadSlot]; exact h
  have hself := slotAt_toggled_self r time supplement
  have hlen : (objSet (spreadSlot (slotAt r time)) supplement
      (!takenOf r time supplement)).length = slotCount (slotAt r time) + 1 := by
    rw [length_objSet, if_neg hnot, slotCount_spreadSlot]
  rw [totalChecks_length_slotAt, totalChecks_length_slotAt]
  cases time
  · rw [hself, slotAt_toggled_ne r .morning .evening supplement (by decide),
      slotAt_toggled_ne r .morning .meal supplement (by decide)]
    simp only [slotCount, hlen]; omega
  · rw [hself, slotAt_toggled_ne r .evening .morning supplement (by decide),
      slotAt_toggled_ne r .evening .meal supplement (by decide)]
    simp only [slotCount, hlen]; omega
  · rw [hself, slotAt_toggled_ne r .meal .morning supplement (by decide),
      slotAt_toggled_ne r .meal .evening supplement (by decide)]
    simp only [slotCount, hlen]; omega

/-- With an entry present, one call of `toggleSupplement` keeps the length of the
checklist. -/
theorem toggled_present_length (r : DayRecord) (time : Slot) (supplement : String) (b : Bool)
    (h : entryOf r time supplement = some b) :
    (totalChecks (setField r (.supplements (toggledSupplements r time supplement)))).length
      = (totalChecks r).length := by
  have hmem : supplement ∈ (spreadSlot (slotAt r time)).map Prod.fst := by
    apply mem_keys_of_lookup _ _ b
    rw [lookup_spreadSlot]; exact h
  have hself := slotAt_toggled_self r time supplement
  have hlen : (objSet (spreadSlot (slotAt r time)) supplement
      (!takenOf r time supplement)).length = slotCount (slotAt r time) := by
    rw [length_objSet, if_pos hmem, slotCount_spreadSlot]
  rw [totalChecks_length_slotAt, totalChecks_length_slotAt]
  cases time
  · rw [hself, slotAt_toggled_ne r .morning .evening supplement (by decide),
      slotAt_toggled_ne r .morning .meal supplement (by decide)]
    simp only [slotCount, hlen]
  · rw [hself, slotAt_toggled_ne r .evening .morning supplement (by decide),
      slotAt_toggled_ne r .evening .meal supplement (by decide)]
    simp only [slotCount, hlen]
  · rw [hself, slotAt_toggled_ne r .meal .morning supplement (by decide),
      slotAt_toggled_ne r .meal .evening supplement (by decide)]
    simp only [slotCount, hlen]

theorem getTodayData_toggleSupplement (data : Store) (selectedDate : String) (time : Slot)
    (supplement : String) :
    getTodayData (toggleSupplement data selectedDate time supplement) selectedDate
      = setField (getTodayData data selectedDate)
          (.supplements (toggledSupplements (getTodayData data selectedDate) time supplement)) := by
  unfold toggleSupplement
  rw [getTodayData_updateTodayData]

/-! ## The last claims -/

/-- C23: `getStreak` is 1 or 0, as the current date is complete or not, plus the length
of the run of complete days that starts at offset 1 and is cut at offset 99; that run is
the longest one. A current date that is not complete does not end the walk. -/
theorem getStreak_eq_run (data : Store) (today : Int) :
    getStreak data today
      = (if getDayStatus data (toISODate today) = "complete" then 1 else 0)
        + completeRun data today 99 1 ∧
    completeRun data today 99 1 ≤ 99 ∧
    (∀ j : Nat, j < completeRun data today 99 1 →
      getDayStatus data (toISODate (today - ((1 + j : Nat) : Int))) = "complete") ∧
    (completeRun data today 99 1 < 99 →
      getDayStatus data (toISODate (today - ((1 + completeRun data today 99 1 : Nat) : Int)))
        ≠ "complete") := by
  refine ⟨?_, completeRun_spec data today 99 1⟩
  have h0 : streakDateStr today 0 = toISODate today := by
    rw [streakDateStr_eq]; simp
  have e : getStreak data today = streakLoop data today (99 + 1) 0 0 := rfl
  rw [e, streakLoop, h0]
  by_cases hc : getDayStatus data (toISODate today) = "complete"
  · rw [if_pos hc, if_pos hc, streakLoop_eq_run data today 99 1 1 (by decide)]
  · rw [if_neg hc, if_neg hc, if_neg (by decide), streakLoop_eq_run data today 99 1 0 (by decide)]

/-- C24: two calls of `toggleSupplement` for a supplement without entry leave the entry
set to false, and the checklist one item longer. The record without supplement entries
and with training, hydration and fasting set is `complete` before the two calls and
`partial`, with 3 items out of 4, after them. -/
theorem toggleSupplement_twice_not_identity :
    (∀ (data : Store) (selectedDate : String) (time : Slot) (supplement : String),
      entryOf (getTodayData data selectedDate) time supplement = none →
      entryOf (getTodayData (toggleSupplement (toggleSupplement data selectedDate time supplement)
          selectedDate time supplement) selectedDate) time supplement = some false ∧
      (totalChecks (getTodayData (toggleSupplement
          (toggleSupplement data selectedDate time supplement)
          selectedDate time supplement) selectedDate)).length
        = (totalChecks (getTodayData data selectedDate)).length + 1) ∧
    getDayStatus threeSetStore "2024-01-08" = "complete" ∧
    getDayStatus (toggleSupplement (toggleSupplement threeSetStore "2024-01-08" .morning
      "NAC 1200mg") "2024-01-08" .morning "NAC 1200mg") "2024-01-08" = "partial" ∧
    totalChecks (getTodayData (toggleSupplement (toggleSupplement threeSetStore "2024-01-08"
      .morning "NAC 1200mg") "2024-01-08" .morning "NAC 1200mg") "2024-01-08")
      = [false, true, true, true] := by
  refine ⟨?_, by decide, by decide, by decide⟩
  intro data selectedDate time supplement h
  rw [getTodayData_toggleSupplement, getTodayData_toggleSupplement]
  generalize getTodayData data selectedDate = r0 at h ⊢
  obtain ⟨a1, a2⟩ := toggled_missing r0 time supplement h
  generalize setField r0 (.supplements (toggledSupplements r0 time supplement)) = r1 at a1 a2 ⊢
  have b1 := (toggledSupplements_entries r1 time supplement).1
  have ht : takenOf r1 time supplement = true := by unfold takenOf; rw [a1]
  rw [ht] at b1
  refine ⟨b1, ?_⟩
  rw [toggled_present_length r1 time supplement true a1, a2]

theorem forall₂_map_same {α : Type} (l : List α) (f g : α → Bool)
    (h : ∀ x ∈ l, f x = true → g x = true) :
    List.Forall₂ (fun a b : Bool => a = true → b = true) (l.map f) (l.map g) := by
  induction l with
  | nil => exact List.Forall₂.nil
  | cons x xs ih =>
    exact List.Forall₂.cons (h x (by simp)) (ih fun y hy => h y (by simp [hy]))

theorem slotValues_objReplace_true (m : SlotMap) (supplement : String) :
    List.Forall₂ (fun a b : Bool => a = true → b = true) (m.map Prod.snd)
      ((objReplace m supplement true).map Prod.snd) := by
  unfold objReplace
  rw [List.map_map]
  apply forall₂_map_same
  intro e _ he
  by_cases hk : e.1 = supplement <;> simp [hk, he]

/-- Setting an existing entry that is false to true by `toggleSupplement` gives a
checklist that is true wherever the old one is. -/
theorem totalChecks_toggled_false (r : DayRecord) (time : Slot) (supplement : String)
    (h : entryOf r time supplement = some false) :
    List.Forall₂ (fun a b : Bool => a = true → b = true) (totalChecks r)
      (totalChecks (setField r (.supplements (toggledSupplements r time supplement)))) := by
  have ht : takenOf r time supplement = false := by unfold takenOf; rw [h]
  obtain ⟨m, hm⟩ : ∃ m, slotAt r time = some m := by
    unfold entryOf at h
    cases hs : slotAt r time with
    | none => rw [hs] at h; exact absurd h (by simp)
    | some m => exact ⟨m, rfl⟩
  have hmem : supplement ∈ m.map Prod.fst := by
    apply mem_keys_of_lookup _ _ false
    unfold entryOf at h
    rw [hm] at h
    exact h
  have hself := slotAt_toggled_self r time supplement
  rw [hm, ht] at hself
  have hset : objSet (spreadSlot (some m)) supplement (!false) = objReplace m supplement true := by
    unfold objSet spreadSlot
    rw [if_pos hmem]
    rfl
  rw [hset] at hself
  have hslot : ∀ s : Slot, List.Forall₂ (fun a b : Bool => a = true → b = true)
      (slotValues (slotAt r s))
      (slotValues (slotAt (setField r (.supplements (toggledSupplements r time supplement))) s)) := by
    intro s
    by_cases hs : s = time
    · subst hs
      rw [hself, hm]
      exact slotValues_objReplace_true m supplement
    · rw [slotAt_toggled_ne r time s supplement hs]
      exact forall₂_imp_self _
  rw [totalChecks_eq_slotAt, totalChecks_eq_slotAt]
  exact List.rel_append (List.rel_append (List.rel_append (hslot .morning) (hslot .evening))
    (hslot .meal)) (forall₂_imp_self _)

theorem getDayStatus_updateTodayData (data : Store) (date : String) (r : DayRecord)
    (fv : FieldValue) (h : data.lookup date = some r) :
    getDayStatus (updateTodayData data date fv) date = classify (totalChecks (setField r fv)) := by
  have hr : getTodayData data date = r := by unfold getTodayData; rw [h]
  apply getDayStatus_of_lookup
  unfold updateTodayData
  rw [lookup_objSet_self, hr]

/-- C25: for a record of the store, an update that makes items of the checklist true and
keeps its length does not lower the status in the order incomplete, partial, complete:
setting hydration, setting a training or a fasting label, and toggling a supplement entry
that is false; and no update gives `empty`. -/
theorem getDayStatus_monotone (data : Store) (date : String) (r : DayRecord)
    (h : data.lookup date = some r) :
    (∀ fv : FieldValue,
      List.Forall₂ (fun a b : Bool => a = true → b = true) (totalChecks r)
        (totalChecks (setField r fv)) →
      statusRank (getDayStatus data date)
        ≤ statusRank (getDayStatus (updateTodayData data date fv) date)) ∧
    statusRank (getDayStatus data date)
      ≤ statusRank (getDayStatus (updateTodayData data date (.hydration true)) date) ∧
    (∀ label : String, label ≠ "" →
      statusRank (getDayStatus data date)
        ≤ statusRank (getDayStatus (updateTodayData data date (.training (some label))) date)) ∧
    (∀ label : String, label ≠ "" →
      statusRank (getDayStatus data date)
        ≤ statusRank (getDayStatus (updateTodayData data date (.fasting (some label))) date)) ∧
    (∀ (time : Slot) (supplement : String), entryOf r time supplement = some false →
      statusRank (getDayStatus data date)
        ≤ statusRank (getDayStatus (toggleSupplement data date time supplement) date)) ∧
    (∀ fv : FieldValue, getDayStatus (updateTodayData data date fv) date ≠ "empty" ∧
      1 ≤ statusRank (getDayStatus (updateTodayData data date fv) date)) := by
  have hr : getTodayData data date = r := by unfold getTodayData; rw [h]
  have hgen : ∀ fv : FieldValue,
      List.Forall₂ (fun a b : Bool => a = true → b = true) (totalChecks r)
        (totalChecks (setField r fv)) →
      statusRank (getDayStatus data date)
        ≤ statusRank (getDayStatus (updateTodayData data date fv) date) := by
    intro fv hfv
    rw [getDayStatus_of_lookup data date r h, getDayStatus_updateTodayData data date r fv h]
    exact classify_mono _ _ hfv
  have htail : ∀ (a b c a' b' c' : Bool), (a = true → a' = true) → (b = true → b' = true) →
      (c = true → c' = true) →
      List.Forall₂ (fun a b : Bool => a = true → b = true) [a, b, c] [a', b', c'] := by
    intro a b c a' b' c' h1 h2 h3
    exact List.Forall₂.cons h1 (List.Forall₂.cons h2 (List.Forall₂.cons h3 List.Forall₂.nil))
  refine ⟨hgen, ?_, ?_, ?_, ?_, ?_⟩
  · apply hgen
    rw [totalChecks_eq_slotAt, totalChecks_eq_slotAt]
    exact List.rel_append (forall₂_imp_self _) (htail _ _ _ _ _ _ id (fun _ => rfl) id)
  · intro label hl
    apply hgen
    rw [totalChecks_eq_slotAt, totalChecks_eq_slotAt]
    refine List.rel_append (forall₂_imp_self _) (htail _ _ _ _ _ _ ?_ id id)
    intro _
    simp [setField, truthy, hl]
  · intro label hl
    apply hgen
    rw [totalChecks_eq_slotAt, totalChecks_eq_slotAt]
    refine List.rel_append (forall₂_imp_self _) (htail _ _ _ _ _ _ id id ?_)
    intro _
    simp [setField, truthy, hl]
  · intro time supplement he
    unfold toggleSupplement
    rw [hr]
    exact hgen _ (totalChecks_toggled_false r time supplement he)
  · intro fv
    rw [getDayStatus_updateTodayData data date r fv h]
    have hne := classify_ne_empty (totalChecks (setField r fv))
    refine ⟨hne, ?_⟩
    unfold classify statusRank
    simp only
    split_ifs <;> first | omega | (exfalso; simp_all)

/-- Witness of C25: the record with 3 true items out of 5 is `incomplete`; with hydration
set it has 4 out of 5 and is `partial`. -/
theorem getDayStatus_monotone_witness :
    getDayStatus boundaryStore "2024-01-08" = "incomplete" ∧
    getDayStatus (updateTodayData boundaryStore "2024-01-08" (.hydration true)) "2024-01-08"
      = "partial" ∧
    statusRank (getDayStatus boundaryStore "2024-01-08")
      ≤ statusRank (getDayStatus (updateTodayData boundaryStore "2024-01-08" (.hydration true))
          "2024-01-08") :=
  ⟨by decide, by decide,
   (getDayStatus_monotone boundaryStore "2024-01-08" exampleThreeOfFive (by decide)).2.1⟩

/-! ## Commas of a row -/

theorem commaCount_append (a b : String) : commaCount (a ++ b) = commaCount a + commaCount b := by
  unfold commaCount
  rw [String.data_append, List.count_append]

theorem commaCount_go (sep : String) : ∀ (l : List String) (acc : String),
    commaCount (String.intercalate.go acc sep l)
      = commaCount acc + (l.map commaCount).sum + l.length * commaCount sep := by
  intro l
  induction l with
  | nil => intro acc; simp [String.intercalate.go]
  | cons a as ih =>
    intro acc
    rw [String.intercalate.go, ih, commaCount_append, commaCount_append]
    simp only [List.map_cons, List.sum_cons, List.length_cons]
    ring

/-- The commas of a join are those of the parts and those of the separators. -/
theorem commaCount_intercalate (sep : String) (l : List String) :
    commaCount (sep.intercalate l)
      = (l.map commaCount).sum + (l.length - 1) * commaCount sep := by
  cases l with
  | nil => simp [String.intercalate, commaCount]
  | cons a as =>
    rw [String.intercalate, commaCount_go]
    simp only [List.map_cons, List.sum_cons, List.length_cons, Nat.add_sub_cancel]

theorem commaCount_replaceCommas (text : String) : commaCount (replaceCommas text) = 0 := by
  unfold commaCount replaceCommas
  rw [List.count_eq_zero]
  simp only [List.mem_map, not_exists, not_and]
  intro c _
  by_cases hc : c = ',' <;> simp [hc]

theorem sum_commaCount_zero (l : List String) (h : ∀ x ∈ l, ',' ∉ x.data) :
    (l.map commaCount).sum = 0 := by
  induction l with
  | nil => rfl
  | cons a as ih =>
    have ha : commaCount a = 0 := by
      unfold commaCount; rw [List.count_eq_zero]; exact h a (by simp)
    simp only [List.map_cons, List.sum_cons, ha, ih fun x hx => h x (by simp [hx])]

theorem commaCount_joined (l : List String) (h : ∀ x ∈ l, ',' ∉ x.data) :
    commaCount (";".intercalate l) = 0 := by
  rw [commaCount_intercalate, sum_commaCount_zero l h]
  have : commaCount ";" = 0 := by decide
  rw [this]
  simp

theorem commaCount_takenNames (slot : Option SlotMap)
    (h : ∀ e ∈ spreadSlot slot, ',' ∉ e.1.data) : commaCount (takenNames slot) = 0 := by
  unfold takenNames
  apply commaCount_joined
  intro x hx
  rw [List.mem_map] at hx
  obtain ⟨e, he, rfl⟩ := hx
  exact h e (List.mem_filter.1 he).1

/-- The commas of a row: the 10 separators and the commas of the fields, the comments
field having none. -/
theorem commaCount_csvRow (date : String) (value : DayRecord) :
    commaCount (csvRow date value)
      = 10 + (commaCount date + commaCount value.weight + commaCount (value.training.getD "")
        + commaCount value.steps + commaCount (value.fasting.getD "")
        + commaCount (";".intercalate value.mood)
        + commaCount (takenNames (value.supplements.bind Supplements.morning))
        + commaCount (takenNames (value.supplements.bind Supplements.evening))
        + commaCount (takenNames (value.supplements.bind Supplements.meal))) := by
  unfold csvRow csvFields
  rw [commaCount_intercalate]
  have hy : commaCount (if value.hydration = true then "Oui" else "Non") = 0 := by
    cases value.hydration <;> decide
  have hc : commaCount "," = 1 := by decide
  simp only [List.map_cons, List.map_nil, List.sum_cons, List.sum_nil, List.length_cons,
    List.length_nil, hy, hc, commaCount_replaceCommas]
  omega

/-- C26: when the date key, the weight, training, steps and fasting texts, the mood tags
and the supplement names have no comma, the row has exactly 10 commas, whatever the
comments are, and the comments column has none. A comma in another field is kept: the
weight text `92,5` gives a row with 11 commas. -/
theorem csvRow_ten_commas (date : String) (value : DayRecord)
    (hd : ',' ∉ date.data) (hw : ',' ∉ value.weight.data)
    (ht : ',' ∉ (value.training.getD "").data) (hs : ',' ∉ value.steps.data)
    (hf : ',' ∉ (value.fasting.getD "").data) (hm : ∀ t ∈ value.mood, ',' ∉ t.data)
    (h1 : ∀ e ∈ spreadSlot (value.supplements.bind Supplements.morning), ',' ∉ e.1.data)
    (h2 : ∀ e ∈ spreadSlot (value.supplements.bind Supplements.evening), ',' ∉ e.1.data)
    (h3 : ∀ e ∈ spreadSlot (value.supplements.bind Supplements.meal), ',' ∉ e.1.data) :
    commaCount (csvRow date value) = 10 ∧
    commaCount csvHeader = 10 ∧
    ',' ∉ (replaceCommas value.comments).data ∧
    commaCount (csvRow "2024-01-08" commaWeightRecord) = 11 := by
  have z : ∀ x : String, ',' ∉ x.data → commaCount x = 0 := by
    intro x hx; unfold commaCount; rw [List.count_eq_zero]; exact hx
  refine ⟨?_, by decide, ?_, by decide⟩
  · rw [commaCount_csvRow, z _ hd, z _ hw, z _ ht, z _ hs, z _ hf, commaCount_joined _ hm,
      commaCount_takenNames _ h1, commaCount_takenNames _ h2, commaCount_takenNames _ h3]
  · have := commaCount_replaceCommas value.comments
    unfold commaCount at this
    rw [List.count_eq_zero] at this
    exact this

/-- Witness of C26: with the comments `a,b,c` the row of the example has 10 commas. -/
theorem csvRow_ten_commas_witness :
    csvRow "2024-01-08" commentsRecord = "2024-01-08,92.5,,,Oui,,,,,,a;b;c" ∧
    commaCount (csvRow "2024-01-08" commentsRecord) = 10 :=
  ⟨by decide,
   (csvRow_ten_commas "2024-01-08" commentsRecord (by decide) (by decide) (by decide)
     (by decide) (by decide) (by decide) (by decide) (by decide) (by decide)).1⟩

/-! ## Date keys of different days -/

theorem padDigits_length (w n : Nat) : (padDigits w n).length = w := by
  induction w generalizing n with
  | zero => rfl
  | succ w ih => simp [padDigits, ih]

theorem digitChar_inj (n m : Nat) (h : digitChar n = digitChar m) : n % 10 = m % 10 := by
  unfold digitChar at h
  have hn : n % 10 < 10 := Nat.mod_lt _ (by decide)
  have hm : m % 10 < 10 := Nat.mod_lt _ (by decide)
  generalize n % 10 = a at h hn
  generalize m % 10 = b at h hm
  interval_cases a <;> interval_cases b <;> first | rfl | exact absurd h (by decide)

theorem padDigits_inj (w : Nat) : ∀ n m : Nat, padDigits w n = padDigits w m →
    n % 10 ^ w = m % 10 ^ w := by
  induction w with
  | zero => intro n m _; simp [Nat.mod_one]
  | succ w ih =>
    intro n m h
    rw [padDigits, padDigits] at h
    obtain ⟨h1, h2⟩ := List.append_inj' h rfl
    have hd := digitChar_inj n m (by simpa using h2)
    have hr := ih (n / 10) (m / 10) h1
    have e : 10 ^ (w + 1) = 10 * 10 ^ w := by rw [pow_succ]; ring
    rw [e, Nat.mod_mul, Nat.mod_mul, hd, hr]

/-- The date keys of two days are equal only if the days have the same date, the same
month and the same printed year. -/
theorem toISODate_parts (a b : Int) (h : toISODate a = toISODate b) :
    isoYear (getFullYear a) = isoYear (getFullYear b) ∧ getMonth a = getMonth b ∧
      getDate a = getDate b := by
  unfold toISODate at h
  have h' : (String.mk _).data = (String.mk _).data := congrArg String.data h
  simp only at h'
  obtain ⟨h1, h2⟩ := List.append_inj' h' (by simp [padDigits_length])
  obtain ⟨h3, h4⟩ := List.append_inj' h1 (by simp [padDigits_length])
  have hd := padDigits_inj 2 _ _ (List.cons.inj h2).2
  have hm := padDigits_inj 2 _ _ (List.cons.inj h4).2
  have ba := getDate_bounds a
  have bb := getDate_bounds b
  have ma := getMonth_bounds a
  have mb := getMonth_bounds b
  refine ⟨h3, ?_, ?_⟩ <;> omega

/-- The day of the year counts on from the first day of the year. -/
theorem dayOfYear_from_start (t j : Int) (h0 : 0 ≤ j) (h1 : j ≤ 364) :
    dayOfYear (dayOfEra (t - dayOfYear (dayOfEra t) + j)) = j := by
  have hb := dayOfEra_bounds t
  have hy := yearOfEra_decomp (dayOfEra t) hb.1 hb.2.1
  have hr := yearOfEra_recover (yearOfEra (dayOfEra t)) j hy.1 hy.2.1 h0 h1
  have he : dayOfEra (t - dayOfYear (dayOfEra t) + j)
      = 365 * yearOfEra (dayOfEra t) + yearOfEra (dayOfEra t) / 4
        - yearOfEra (dayOfEra t) / 100 + j := by
    generalize dayOfYear (dayOfEra t) = n at *
    generalize yearOfEra (dayOfEra t) = y at *
    generalize hd : dayOfEra t = doe at *
    generalize eraOf t = e at *
    unfold dayOfEra
    omega
  rw [he, hr.2]

theorem dayOfYear_eq_of_month_date (a b : Int) (hm : getMonth a = getMonth b)
    (hd : getDate a = getDate b) :
    dayOfYear (dayOfEra a) = dayOfYear (dayOfEra b) := by
  have ha := dayOfEra_bounds a
  have hb := dayOfEra_bounds b
  have ya := yearOfEra_decomp (dayOfEra a) ha.1 ha.2.1
  have yb := yearOfEra_decomp (dayOfEra b) hb.1 hb.2.1
  unfold getMonth getDate marchMonth marchMonthStart at *
  generalize dayOfYear (dayOfEra a) = x at *
  generalize dayOfYear (dayOfEra b) = y at *
  simp only at hm hd
  split_ifs at hm <;> omega

/-- Two days less than a year apart with the same month and date are the same day. -/
theorem eq_of_month_date_near (a b : Int) (hm : getMonth a = getMonth b)
    (hd : getDate a = getDate b) (h1 : a - b ≤ 364) (h2 : b - a ≤ 364) : a = b := by
  have hdoy := dayOfYear_eq_of_month_date a b hm hd
  by_cases hab : a ≤ b
  · have k1 := dayOfYear_from_start a (b - a) (by omega) h2
    have k2 := dayOfYear_from_start b 0 (by omega) (by omega)
    have e : a - dayOfYear (dayOfEra a) + (b - a) = b - dayOfYear (dayOfEra b) + 0 := by omega
    rw [e, k2] at k1
    omega
  · have k1 := dayOfYear_from_start b (a - b) (by omega) h1
    have k2 := dayOfYear_from_start a 0 (by omega) (by omega)
    have e : b - dayOfYear (dayOfEra b) + (a - b) = a - dayOfYear (dayOfEra a) + 0 := by omega
    rw [e, k2] at k1
    omega

/-- Days less than a year apart have different date keys. -/
theorem toISODate_inj_near (a b : Int) (h : toISODate a = toISODate b) (h1 : a - b ≤ 364)
    (h2 : b - a ≤ 364) : a = b := by
  obtain ⟨_, hm, hd⟩ := toISODate_parts a b h
  exact eq_of_month_date_near a b hm hd h1 h2

theorem isoYear_inj (x y : Int) (hx : -999999 ≤ x ∧ x ≤ 999999) (hy : -999999 ≤ y ∧ y ≤ 999999)
    (h : isoYear x = isoYear y) : x = y := by
  unfold isoYear at h
  by_cases cx : 0 ≤ x ∧ x ≤ 9999
  · by_cases cy : 0 ≤ y ∧ y ≤ 9999
    · rw [if_pos cx, if_pos cy] at h
      have := padDigits_inj 4 _ _ h
      omega
    · rw [if_pos cx, if_neg cy] at h
      have := congrArg List.length h
      simp [padDigits_length] at this
  · by_cases cy : 0 ≤ y ∧ y ≤ 9999
    · rw [if_neg cx, if_pos cy] at h
      have := congrArg List.length h
      simp [padDigits_length] at this
    · rw [if_neg cx, if_neg cy] at h
      obtain ⟨hs, hp⟩ := List.cons.inj h
      have hmod := padDigits_inj 6 _ _ hp
      by_cases nx : x < 0
      · by_cases ny : y < 0
        · omega
        · rw [if_pos nx, if_neg ny] at hs
          exact absurd hs (by decide)
      · by_cases ny : y < 0
        · rw [if_neg nx, if_pos ny] at hs
          exact absurd hs (by decide)
        · omega

theorem getFullYear_range (t : Int) (h : inDateRange t) :
    -999999 ≤ getFullYear t ∧ getFullYear t ≤ 999999 := by
  have hb := dayOfEra_bounds t
  have hy := yearOfEra_decomp (dayOfEra t) hb.1 hb.2.1
  unfold inDateRange at h
  unfold getFullYear
  simp only
  generalize yearOfEra (dayOfEra t) = y at *
  generalize dayOfEra t = doe at *
  generalize eraOf t = e at *
  split_ifs <;> omega

/-- Inside the range of `Date`, different days have different date keys. -/
theorem toISODate_inj (a b : Int) (ha : inDateRange a) (hb : inDateRange b)
    (h : toISODate a = toISODate b) : a = b := by
  obtain ⟨hy, hm, hd⟩ := toISODate_parts a b h
  have hyear := isoYear_inj _ _ (getFullYear_range a ha) (getFullYear_range b hb) hy
  have ea : setDate a (getDate a) = a := by rw [setDate_eq]; omega
  have eb : setDate b (getDate b) = b := by rw [setDate_eq]; omega
  unfold setDate at ea eb
  rw [← ea, ← eb, hyear, hm, hd]

/-- The first day of a month lies in that month. -/
theorem getMonth_makeDay_one (year month : Int) :
    getMonth (makeDay year month 1) = month % 12 := by
  unfold makeDay firstOfMonth
  generalize year + month / 12 = ym
  have hmn : 0 ≤ month % 12 ∧ month % 12 ≤ 11 := by omega
  generalize month % 12 = mn at hmn
  simp only
  generalize hy : (if mn < 2 then ym - 1 else ym) = y
  generalize hmp : (if mn < 2 then mn + 10 else mn - 2) = mp
  have hmp' : 0 ≤ mp ∧ mp ≤ 11 := by split_ifs at hmp <;> omega
  have hs : 0 ≤ marchMonthStart mp ∧ marchMonthStart mp ≤ 337 := by
    unfold marchMonthStart; omega
  have hr := yearOfEra_recover (y % 400) (marchMonthStart mp) (by omega) (by omega) hs.1
    (by omega)
  have hdoe : dayOfEra (146097 * (y / 400) + (365 * (y % 400) + y % 400 / 4 - y % 400 / 100)
      + marchMonthStart mp - 719468 + 1 - 1)
      = 365 * (y % 400) + y % 400 / 4 - y % 400 / 100 + marchMonthStart mp := by
    unfold dayOfEra; omega
  unfold getMonth
  rw [hdoe, hr.2]
  dsimp only
  rw [marchMonth_start mp hmp'.1 hmp'.2]
  split_ifs at hmp ⊢ <;> omega

/-- The first day of a month lies in the year that the month carries into. -/
theorem getFullYear_makeDay_one (year month : Int) :
    getFullYear (makeDay year month 1) = year + month / 12 := by
  unfold makeDay firstOfMonth
  generalize year + month / 12 = ym
  have hmn : 0 ≤ month % 12 ∧ month % 12 ≤ 11 := by omega
  generalize month % 12 = mn at hmn
  simp only
  generalize hy : (if mn < 2 then ym - 1 else ym) = y
  generalize hmp : (if mn < 2 then mn + 10 else mn - 2) = mp
  have hmp' : 0 ≤ mp ∧ mp ≤ 11 := by split_ifs at hmp <;> omega
  have hs : 0 ≤ marchMonthStart mp ∧ marchMonthStart mp ≤ 337 := by
    unfold marchMonthStart; omega
  have hr := yearOfEra_recover (y % 400) (marchMonthStart mp) (by omega) (by omega) hs.1
    (by omega)
  have hdoe : dayOfEra (146097 * (y / 400) + (365 * (y % 400) + y % 400 / 4 - y % 400 / 100)
      + marchMonthStart mp - 719468 + 1 - 1)
      = 365 * (y % 400) + y % 400 / 4 - y % 400 / 100 + marchMonthStart mp := by
    unfold dayOfEra; omega
  have hera : eraOf (146097 * (y / 400) + (365 * (y % 400) + y % 400 / 4 - y % 400 / 100)
      + marchMonthStart mp - 719468 + 1 - 1) = y / 400 := by
    unfold eraOf; omega
  unfold getFullYear
  rw [hdoe, hera]
  dsimp only
  rw [hr.1, hr.2, marchMonth_start mp hmp'.1 hmp'.2]
  split_ifs at hmp ⊢ <;> omega

/-- The year of the target month: the current year, read by the two-digit rule of the
constructor, plus the carry of the month index. -/
theorem getFullYear_targetMonth (today monthOffset : Int) :
    getFullYear (targetMonth today monthOffset)
      = (if 0 ≤ getFullYear today ∧ getFullYear today ≤ 99 then 1900 + getFullYear today
          else getFullYear today) + (getMonth today + monthOffset) / 12 := by
  unfold targetMonth newDate
  exact getFullYear_makeDay_one _ _

/-- The month index of the target month. -/
theorem getMonth_targetMonth (today monthOffset : Int) :
    getMonth (targetMonth today monthOffset) = (getMonth today + monthOffset) % 12 := by
  unfold targetMonth newDate
  exact getMonth_makeDay_one _ _

/-- A day in the month of a first of the month is at most 30 days after it. -/
theorem day_of_month_of_first (t first : Int) (hf : getDate first = 1)
    (hy : getFullYear t = getFullYear first) (hm : getMonth t = getMonth first) :
    t = first + (getDate t - 1) := by
  have et : setDate t (getDate t) = t := by rw [setDate_eq]; omega
  have ef : setDate first (getDate t) = first - getDate first + getDate t := setDate_eq _ _
  unfold setDate at et ef
  rw [hy, hm, ef, hf] at et
  omega

/-- C21: the 42 keys of `getMonthDates` are the keys of 42 days in a row from
`startDate`, without repeats. The target month is the month `monthOffset` months from the
current one: `targetMonth` is its first day, its month index is
`(getMonth today + monthOffset) % 12` and its year is the current year plus the carry
`(getMonth today + monthOffset) / 12` (the constructor reads a current year in `0..99` as
`1900 + year`; for every other current year the months counted from year 0 add up,
`12 * year + month` of the target is that of today plus `monthOffset`). Every day of the
target month, named by the year and the month of `targetMonth` or by the year and the
month computed from the inputs, has its key among the 42, whatever the length of the
month and the weekday of its first day. From 7 January 2024 the offset `-1` targets
December 2023, the offset `13` February 2025 and the offset `-11` February 2023. -/
theorem getMonthDates_covers_month (today monthOffset : Int) :
    getMonthDates today monthOffset
      = (List.range 42).map (fun (i : Nat) => toISODate (startDate today monthOffset + (i : Int))) ∧
    (getMonthDates today monthOffset).Nodup ∧
    getDate (targetMonth today monthOffset) = 1 ∧
    getMonth (targetMonth today monthOffset) = (getMonth today + monthOffset) % 12 ∧
    getFullYear (targetMonth today monthOffset)
      = (if 0 ≤ getFullYear today ∧ getFullYear today ≤ 99 then 1900 + getFullYear today
          else getFullYear today) + (getMonth today + monthOffset) / 12 ∧
    (¬ (0 ≤ getFullYear today ∧ getFullYear today ≤ 99) →
      12 * getFullYear (targetMonth today monthOffset) + getMonth (targetMonth today monthOffset)
        = 12 * getFullYear today + getMonth today + monthOffset) ∧
    (∀ t : Int, getFullYear t = getFullYear (targetMonth today monthOffset) →
      getMonth t = getMonth (targetMonth today monthOffset) →
      startDate today monthOffset < t ∧ t ≤ startDate today monthOffset + 41 ∧
      toISODate t ∈ getMonthDates today monthOffset) ∧
    (∀ t : Int,
      getFullYear t
        = (if 0 ≤ getFullYear today ∧ getFullYear today ≤ 99 then 1900 + getFullYear today
            else getFullYear today) + (getMonth today + monthOffset) / 12 →
      getMonth t = (getMonth today + monthOffset) % 12 →
      toISODate t ∈ getMonthDates today monthOffset) ∧
    toISODate (targetMonth sunday20240107 (-1)) = "2023-12-01" ∧
    toISODate (targetMonth sunday20240107 13) = "2025-02-01" ∧
    toISODate (targetMonth sunday20240107 (-11)) = "2023-02-01" := by
  have hcover : ∀ t : Int, getFullYear t = getFullYear (targetMonth today monthOffset) →
      getMonth t = getMonth (targetMonth today monthOffset) →
      startDate today monthOffset < t ∧ t ≤ startDate today monthOffset + 41 ∧
      toISODate t ∈ getMonthDates today monthOffset := by
    intro t hy hm
    have ht := day_of_month_of_first t (targetMonth today monthOffset)
      (getDate_targetMonth today monthOffset) hy hm
    have hd := getDate_bounds t
    have hs := startDate_before today monthOffset
    refine ⟨by omega, by omega, ?_⟩
    rw [getMonthDates_eq, List.mem_map]
    refine ⟨(t - startDate today monthOffset).toNat, ?_, ?_⟩
    · rw [List.mem_range]; omega
    · congr 1; omega
  have hyear := getFullYear_targetMonth today monthOffset
  have hmonth := getMonth_targetMonth today monthOffset
  refine ⟨getMonthDates_eq today monthOffset, ?_, getDate_targetMonth today monthOffset,
    hmonth, hyear, ?_, hcover, ?_, by decide, by decide, by decide⟩
  · rw [getMonthDates_eq]
    apply List.Nodup.map_on _ (List.nodup_range 42)
    intro x hx y hy hxy
    rw [List.mem_range] at hx hy
    have := toISODate_inj_near _ _ hxy (by omega) (by omega)
    omega
  · intro h
    rw [hyear, hmonth, if_neg h]
    omega
  · intro t hy hm
    exact (hcover t (by rw [hyear, hy]) (by rw [hmonth, hm])).2.2

/-- C22: the 7 keys of `getWeekDates` at offset `k` are the keys of 7 days in a row, the
days `7 * k` after those of offset 0, without repeats; the week at offset `k + 1` starts
on the day after the last day of the week at offset `k`; weeks at different offsets have
no day in common, and inside the range of `Date` no key in common. -/
theorem getWeekDates_shift (today k : Int) :
    getWeekDates today k
      = (List.range 7).map (fun (i : Nat) => toISODate (startOfWeek today 0 + 7 * k + (i : Int))) ∧
    (getWeekDates today k).Nodup ∧
    startOfWeek today (k + 1) = startOfWeek today k + 6 + 1 ∧
    (∀ (k' : Int) (i j : Nat), k' ≠ k → i < 7 → j < 7 →
      startOfWeek today k + (i : Int) ≠ startOfWeek today k' + (j : Int)) ∧
    (∀ k' : Int, k' ≠ k →
      inDateRange (startOfWeek today k) → inDateRange (startOfWeek today k + 6) →
      inDateRange (startOfWeek today k') → inDateRange (startOfWeek today k' + 6) →
      ∀ key ∈ getWeekDates today k, key ∉ getWeekDates today k') := by
  have hs : ∀ k : Int, startOfWeek today k = startOfWeek today 0 + 7 * k := by
    intro k
    rw [startOfWeek_eq, startOfWeek_eq]; omega
  refine ⟨?_, ?_, ?_, ?_, ?_⟩
  · rw [getWeekDates_eq, hs k]
  · rw [getWeekDates_eq]
    apply List.Nodup.map_on _ (List.nodup_range 7)
    intro x hx y hy hxy
    rw [List.mem_range] at hx hy
    have := toISODate_inj_near _ _ hxy (by omega) (by omega)
    omega
  · rw [hs (k + 1), hs k]; omega
  · intro k' i j hk hi hj
    rw [hs k, hs k']
    omega
  · intro k' hk r1 r2 r3 r4 key hkey hkey'
    rw [getWeekDates_eq, List.mem_map] at hkey hkey'
    obtain ⟨i, hi, rfl⟩ := hkey
    obtain ⟨j, hj, hij⟩ := hkey'
    rw [List.mem_range] at hi hj
    unfold inDateRange at r1 r2 r3 r4
    have := toISODate_inj _ _ (by unfold inDateRange; omega) (by unfold inDateRange; omega) hij
    rw [hs k, hs k'] at this
    omega

/-- Witness of C22: the weeks at offsets 0 and 1 seen from 2024-01-08. -/
theorem getWeekDates_shift_witness :
    getWeekDates monday20240108 0
      = ["2024-01-08", "2024-01-09", "2024-01-10", "2024-01-11", "2024-01-12", "2024-01-13",
         "2024-01-14"] ∧
    (getWeekDates monday20240108 1).head? = some "2024-01-15" ∧
    ∀ key ∈ getWeekDates monday20240108 0, key ∉ getWeekDates monday20240108 1 :=
  ⟨by decide, by decide,
   (getWeekDates_shift monday20240108 0).2.2.2.2 1 (by decide)
     (by unfold inDateRange; decide) (by unfold inDateRange; decide)
     (by unfold inDateRange; decide) (by unfold inDateRange; decide)⟩

end Tracker
